import Mathlib

/-!
Shallow embedding of the givilsta whitelist rule engine
(package `internal/ruler` + `pkg/givilsta` of funilrys/givilsta).

Go strings are byte strings; we model them as `List Nat` (each entry a byte,
0..255), so that byte-indexed slicing such as `rule[:strings.Index(rule,"#")-1]`
and `rule[:4]` is modelled exactly.  Runes (Unicode code points) are produced
from bytes by a model of `utf8.DecodeRune` with Go's U+FFFD conventions.
-/

namespace Givilsta

/-- A Go string: a list of bytes (each < 256 for well-formed values). -/
abbrev GoStr := List Nat

/-! ## UTF-8 (model of Go's `unicode/utf8`) -/

/-- UTF-8 encoding of one code point, with Go's `utf8.EncodeRune` conventions:
surrogates and out-of-range values encode as U+FFFD. -/
def utf8Enc (c : Nat) : List Nat :=
  if c < 0x80 then [c]
  else if c < 0x800 then [0xC0 + c / 64, 0x80 + c % 64]
  else if 0xD800 ≤ c ∧ c ≤ 0xDFFF then [0xEF, 0xBF, 0xBD]
  else if c < 0x10000 then [0xE0 + c / 4096, 0x80 + (c / 64) % 64, 0x80 + c % 64]
  else if c ≤ 0x10FFFF then
    [0xF0 + c / 262144, 0x80 + (c / 4096) % 64, 0x80 + (c / 64) % 64, 0x80 + c % 64]
  else [0xEF, 0xBF, 0xBD]

/-- Is `b` a UTF-8 continuation byte (0x80..0xBF)? -/
def isCont (b : Nat) : Bool := 0x80 ≤ b ∧ b ≤ 0xBF

/-- Model of `utf8.DecodeRune`: decode the first rune of `s`, returning
(rune, number of bytes consumed).  Invalid input yields (0xFFFD, 1);
empty input yields (0xFFFD, 0). -/
def utf8DecFirst (s : GoStr) : Nat × Nat :=
  match s with
  | [] => (0xFFFD, 0)
  | b0 :: rest =>
    if b0 < 0x80 then (b0, 1)
    else if 0xC2 ≤ b0 ∧ b0 ≤ 0xDF then
      match rest with
      | b1 :: _ =>
        if isCont b1 then ((b0 - 0xC0) * 64 + (b1 - 0x80), 2) else (0xFFFD, 1)
      | [] => (0xFFFD, 1)
    else if 0xE0 ≤ b0 ∧ b0 ≤ 0xEF then
      match rest with
      | b1 :: b2 :: _ =>
        let lo1 := if b0 = 0xE0 then 0xA0 else 0x80
        let hi1 := if b0 = 0xED then 0x9F else 0xBF
        if (lo1 ≤ b1 ∧ b1 ≤ hi1) ∧ isCont b2 then
          ((b0 - 0xE0) * 4096 + (b1 - 0x80) * 64 + (b2 - 0x80), 3)
        else (0xFFFD, 1)
      | _ => (0xFFFD, 1)
    else if 0xF0 ≤ b0 ∧ b0 ≤ 0xF4 then
      match rest with
      | b1 :: b2 :: b3 :: _ =>
        let lo1 := if b0 = 0xF0 then 0x90 else 0x80
        let hi1 := if b0 = 0xF4 then 0x8F else 0xBF
        if (lo1 ≤ b1 ∧ b1 ≤ hi1) ∧ isCont b2 ∧ isCont b3 then
          ((b0 - 0xF0) * 262144 + (b1 - 0x80) * 4096 + (b2 - 0x80) * 64 + (b3 - 0x80), 4)
        else (0xFFFD, 1)
      | _ => (0xFFFD, 1)
    else (0xFFFD, 1)

/-- Fuelled worker for `goRunes`. -/
def goRunesF : Nat → GoStr → List Nat
  | 0, _ => []
  | _, [] => []
  | fuel + 1, s =>
    let (r, n) := utf8DecFirst s
    r :: goRunesF fuel (s.drop (max n 1))

/-- The rune sequence of a Go string, as produced by `for _, r := range s`
(invalid bytes yield U+FFFD and advance one byte). -/
def goRunes (s : GoStr) : List Nat := goRunesF s.length s

/-- Is `b` a byte at which a rune can start (not a continuation byte)? -/
def runeStart (b : Nat) : Bool := ¬(0x80 ≤ b ∧ b ≤ 0xBF)

/-- Model of `utf8.DecodeLastRune`: an ASCII last byte is its own rune;
otherwise back up (at most to `len - 4`) to the nearest rune-start byte,
decode from there, and demand the decoded size reach the end exactly,
yielding (0xFFFD, 1) otherwise — exactly Go's algorithm. -/
def utf8DecLast (s : GoStr) : Nat × Nat :=
  let e := s.length
  if e = 0 then (0xFFFD, 0)
  else
    let last := s.getD (e - 1) 0
    if last < 0x80 then (last, 1)
    else
      let lim := e - 4
      let start :=
        if 2 ≤ e ∧ lim ≤ e - 2 ∧ runeStart (s.getD (e - 2) 0) then e - 2
        else if 3 ≤ e ∧ lim ≤ e - 3 ∧ runeStart (s.getD (e - 3) 0) then e - 3
        else if 4 ≤ e ∧ lim ≤ e - 4 ∧ runeStart (s.getD (e - 4) 0) then e - 4
        else lim - 1
      let (r, size) := utf8DecFirst (s.drop start)
      if start + size = e then (r, size) else (0xFFFD, 1)

/-! ## Byte-string operations (models of Go's `strings` package) -/

/-- Unicode white space, exactly Go's `unicode.IsSpace` set. -/
def isSpaceRune (r : Nat) : Bool :=
  r = 9 ∨ r = 10 ∨ r = 11 ∨ r = 12 ∨ r = 13 ∨ r = 32 ∨ r = 0x85 ∨ r = 0xA0 ∨
  r = 0x1680 ∨ (0x2000 ≤ r ∧ r ≤ 0x200A) ∨ r = 0x2028 ∨ r = 0x2029 ∨
  r = 0x202F ∨ r = 0x205F ∨ r = 0x3000

/-- Fuelled left-trim of white space (rune-aware, like `strings.TrimSpace`). -/
def goTrimLeftF : Nat → GoStr → GoStr
  | 0, s => s
  | fuel + 1, s =>
    match s with
    | [] => []
    | _ =>
      let (r, n) := utf8DecFirst s
      if isSpaceRune r then goTrimLeftF fuel (s.drop (max n 1)) else s

/-- Fuelled right-trim of white space. -/
def goTrimRightF : Nat → GoStr → GoStr
  | 0, s => s
  | fuel + 1, s =>
    match s with
    | [] => []
    | _ =>
      let (r, n) := utf8DecLast s
      if isSpaceRune r then goTrimRightF fuel (s.take (s.length - max n 1)) else s

/-- Model of `strings.TrimSpace`. -/
def goTrimSpace (s : GoStr) : GoStr :=
  goTrimRightF s.length (goTrimLeftF s.length s)

/-- Model of `strings.HasPrefix`. -/
def goStarts (s pre : GoStr) : Bool := s.take pre.length = pre

/-- Model of `strings.HasSuffix`. -/
def goEnds (s suf : GoStr) : Bool := s.drop (s.length - suf.length) = suf ∧ suf.length ≤ s.length

/-- Model of `strings.TrimPrefix` (strips at most one leading occurrence). -/
def goTrimPre (s pre : GoStr) : GoStr := if goStarts s pre then s.drop pre.length else s

/-- First byte index at which `sub` occurs in `s`, or `s.length` when it does
not occur (Go's `strings.Index` returns -1 then; every use in the source is
guarded by `strings.Contains`). -/
def goIdx : GoStr → GoStr → Nat
  | s, sub =>
    match s with
    | [] => if sub = [] then 0 else 0
    | _ :: rest => if goStarts s sub then 0 else 1 + goIdx rest sub

/-- Model of `strings.Contains`. -/
def goContains : GoStr → GoStr → Bool
  | s, sub =>
    match s with
    | [] => sub = []
    | _ :: rest => goStarts s sub ∨ goContains rest sub

/-- Model of `strings.SplitN(s, sep, 2)` for non-empty `sep`: split at the
first occurrence, if any. -/
def goSplitTwo (s sep : GoStr) : List GoStr :=
  if goContains s sep then [s.take (goIdx s sep), s.drop (goIdx s sep + sep.length)]
  else [s]

/-- Fuelled worker for `goSplit`. -/
def goSplitF : Nat → GoStr → GoStr → List GoStr
  | 0, s, _ => [s]
  | fuel + 1, s, sep =>
    if goContains s sep then
      s.take (goIdx s sep) :: goSplitF fuel (s.drop (goIdx s sep + sep.length)) sep
    else [s]

/-- Model of `strings.Split` for non-empty `sep`. -/
def goSplit (s sep : GoStr) : List GoStr := goSplitF s.length s sep

/-- Model of `strings.Join`. -/
def goJoin : List GoStr → GoStr → GoStr
  | [], _ => []
  | [x], _ => x
  | x :: xs, sep => x ++ sep ++ goJoin xs sep

/-- Fuelled worker for `goCount`. -/
def goCountF : Nat → GoStr → GoStr → Nat
  | 0, _, _ => 0
  | fuel + 1, s, sub =>
    if goContains s sub then 1 + goCountF fuel (s.drop (goIdx s sub + sub.length)) sub
    else 0

/-- Model of `strings.Count` for non-empty `sub` (non-overlapping count). -/
def goCount (s sub : GoStr) : Nat := goCountF s.length s sub

/-- Fuelled worker for `goReplaceAll`. -/
def goReplaceAllF : Nat → GoStr → GoStr → GoStr → GoStr
  | 0, s, _, _ => s
  | fuel + 1, s, old, new =>
    if goContains s old then
      s.take (goIdx s old) ++ new ++ goReplaceAllF fuel (s.drop (goIdx s old + old.length)) old new
    else s

/-- Model of `strings.ReplaceAll` for non-empty `old`.  For `old = ""` Go
interleaves `new` at every rune boundary while this model returns `s`
unchanged.  The engine reaches `old = ""` only in the complement branch of
`parsePlainRule`/`unparsePlainRule` when the extracted net location is
empty (a scheme-only rule such as `https://` with complement handling on),
where the entry the model pushes differs from Go's interleaving.  The
theorems below are insensitive to that choice: push and pull entry lists
come from the same function, so their cancellation is symmetric either
way, and `pullRegexRule` always passes `new = ""`, where both readings
leave `s` unchanged. -/
def goReplaceAll (s old new : GoStr) : GoStr :=
  if old = [] then s else goReplaceAllF s.length s old new

/-- Model of `strings.Replace(s, old, new, 1)`.  For `old = ""` Go inserts
`new` once at the start. -/
def goReplaceOne (s old new : GoStr) : GoStr :=
  if old = [] then new ++ s
  else if goContains s old then s.take (goIdx s old) ++ new ++ s.drop (goIdx s old + old.length)
  else s

/-- ASCII lower-casing of one rune.  Go's `strings.ToLower` applies the full
Unicode simple case mapping; the only non-ASCII runes it maps into ASCII are
U+212A (to 'k') and U+0130 (to 'i'), neither of which occurs in the flag
alphabet `a l r e g z d b` + separators, so the ASCII mapping is extensionally
adequate for every use in the engine (flag detection and stripping). -/
def lowerRune (r : Nat) : Nat := if 65 ≤ r ∧ r ≤ 90 then r + 32 else r

/-- Model of `strings.ToLower`: decode runes (invalid bytes become U+FFFD,
as Go's rune-wise mapping does), lower-case, re-encode. -/
def goToLower (s : GoStr) : GoStr := ((goRunes s).map lowerRune).flatMap utf8Enc

/-- Collect the maximal leading non-space run of `s` and return it with
the remainder (fuelled). -/
def fieldTakeF : Nat → GoStr → GoStr × GoStr
  | 0, s => ([], s)
  | fuel + 1, s =>
    match s with
    | [] => ([], [])
    | _ =>
      let (r, n) := utf8DecFirst s
      if isSpaceRune r then ([], s)
      else
        let (f, rest) := fieldTakeF fuel (s.drop (max n 1))
        (s.take (max n 1) ++ f, rest)

/-- Fuelled worker for `goFields`: skip white space, collect maximal
non-space runs. -/
def goFieldsF : Nat → GoStr → List GoStr
  | 0, _ => []
  | fuel + 1, s =>
    match s with
    | [] => []
    | _ =>
      let (r, n) := utf8DecFirst s
      if isSpaceRune r then goFieldsF fuel (s.drop (max n 1))
      else
        let (f, rest) := fieldTakeF s.length s
        f :: goFieldsF fuel rest

/-- Model of `strings.Fields`: split around runs of white space. -/
def goFields (s : GoStr) : List GoStr := goFieldsF s.length s

/-- Model of `slices.Compact`: collapse runs of adjacent equal elements. -/
def slicesCompact : List GoStr → List GoStr
  | [] => []
  | [x] => [x]
  | x :: y :: rest =>
    if x = y then slicesCompact (y :: rest) else x :: slicesCompact (y :: rest)

/-- Model of `slices.Contains`. -/
def slicesContains (l : List GoStr) (x : GoStr) : Bool := l.any (fun r => r = x)

/-- Encode a Lean string literal as a Go byte string (UTF-8). -/
def gs (s : String) : GoStr := s.data.flatMap (fun c => utf8Enc c.toNat)

/-- Last byte index at which byte `b` occurs in `s`, or `s.length` if absent
(`strings.LastIndex` for a one-byte needle; all uses are guarded). -/
def goLastIdxByte (s : GoStr) (b : Nat) : Nat :=
  (s.foldl (fun (acc : Nat × Nat) c => (acc.1 + 1, if c = b then acc.1 else acc.2))
    (0, s.length)).2

/-! ## IDNA / punycode (model of `golang.org/x/net/idna`, Punycode profile)

`idna.ToASCII` is `punycode.ToASCII`: a zero profile with no mapping, no
validation and no DNS length checks.  It splits at `.`, leaves ASCII labels
unchanged, and encodes every non-ASCII label as `xn--` + RFC 3492 punycode.
(The profile also round-trips already-encoded `xn--` labels through the
punycode decoder, which on valid encodings is the identity; no input in this
development carries an ACE label, so the model omits that decode pass.
Encoding errors arise in Go only on 32-bit overflow for astronomically long
labels; the model uses `Nat` and is total, so `idnazeString`'s fallback-to-
original branch is never taken.) -/

/-- Punycode digit: 0..25 → 'a'..'z', 26..35 → '0'..'9'. -/
def encodeDigit (d : Nat) : Nat := if d < 26 then 97 + d else 22 + d

/-- The scaling loop inside `adapt` (fuelled; 64 is far beyond the bound). -/
def adaptLoopF : Nat → Nat → Nat → Nat × Nat
  | 0, delta, k => (delta, k)
  | fuel + 1, delta, k =>
    if 455 < delta then adaptLoopF fuel (delta / 35) (k + 36) else (delta, k)

/-- RFC 3492 bias adaptation, as in Go's `punycode.go` (base 36, tmin 1,
tmax 26, skew 38, damp 700). -/
def adapt (delta numPoints : Nat) (firstTime : Bool) : Nat :=
  let d1 := if firstTime then delta / 700 else delta / 2
  let d2 := d1 + d1 / numPoints
  let (d3, k) := adaptLoopF 64 d2 0
  k + 36 * d3 / (d3 + 38)

/-- The variable-length-integer digit loop of punycode encoding (fuelled;
`q` strictly decreases, so fuel `q + 2` suffices). -/
def punyDigitsF : Nat → Nat → Nat → Nat → GoStr → GoStr
  | 0, q, _, _, acc => acc ++ [encodeDigit q]
  | fuel + 1, q, k, bias, acc =>
    let t0 := k - bias
    let t := if t0 < 1 then 1 else if 26 < t0 then 26 else t0
    if q < t then acc ++ [encodeDigit q]
    else punyDigitsF fuel ((q - t) / (36 - t)) (k + 36) bias (acc ++ [encodeDigit (t + (q - t) % (36 - t))])

/-- The smallest rune in `runes` that is `≥ n` (0x7FFFFFFF when none), as in
Go's inner minimum scan. -/
def minAbove (runes : List Nat) (n : Nat) : Nat :=
  runes.foldl (fun m r => if r < m ∧ n ≤ r then r else m) 0x7FFFFFFF

/-- One pass over the runes for the current code point `n`, threading
(delta, bias, h, remaining, output). -/
def punyScan (b n : Nat) : List Nat → Nat × Nat × Nat × Nat × GoStr → Nat × Nat × Nat × Nat × GoStr
  | [], st => st
  | r :: rest, (delta, bias, h, rem, acc) =>
    if r < n then punyScan b n rest (delta + 1, bias, h, rem, acc)
    else if r = n then
      let acc2 := punyDigitsF (delta + 2) delta 36 bias acc
      punyScan b n rest (0, adapt delta (h + 1) (h = b), h + 1, rem - 1, acc2)
    else punyScan b n rest (delta, bias, h, rem, acc)

/-- The outer `for remaining != 0` loop of punycode encoding (fuelled;
each iteration consumes at least one remaining non-basic rune). -/
def punyOuterF : Nat → List Nat → Nat → Nat → Nat → Nat → Nat → Nat → GoStr → GoStr
  | 0, _, _, _, _, _, _, _, acc => acc
  | fuel + 1, runes, b, n, delta, bias, h, rem, acc =>
    if rem = 0 then acc
    else
      let m := minAbove runes n
      let delta2 := delta + (m - n) * (h + 1)
      let (d3, bias2, h2, rem2, acc2) := punyScan b m runes (delta2, bias, h, rem, acc)
      punyOuterF fuel runes b (m + 1) (d3 + 1) bias2 h2 rem2 acc2

/-- Model of Go's `punycode.go` `encode(prefix, s)`. -/
def punyEncode (pre : GoStr) (label : GoStr) : GoStr :=
  let runes := goRunes label
  let basics := runes.filter (fun r => r < 0x80)
  let b := basics.length
  let rem := runes.length - b
  let out0 := pre ++ basics ++ (if 0 < b then [45] else [])
  punyOuterF (rem + 1) runes b 128 0 72 b rem out0

/-- Are all bytes ASCII (Go's `ascii` helper)? -/
def isASCII (s : GoStr) : Bool := s.all (fun b => b < 0x80)

/-- Encode one DNS label as `idna.ToASCII` does. -/
def encLabel (label : GoStr) : GoStr :=
  if isASCII label then label else punyEncode (gs "xn--") label

/-- Model of `idna.ToASCII` (Punycode profile, total — see above). -/
def idnaToASCII (s : GoStr) : GoStr :=
  goJoin ((goSplit s (gs ".")).map encLabel) (gs ".")

/-- Model of `idnazeString`: IDNA-encode, falling back to the original on
error (the error branch is unreachable in the model, see above). -/
def idnazeString (subject : GoStr) : GoStr := idnaToASCII subject

/-- The literals of the `regex_to_skip` pattern in `idnaze`; the pattern is
an alternation of suffix-anchored literals, so it matches exactly the strings
ending in one of these. -/
def skipSuffixes : List GoStr :=
  [gs "localhost", gs "localdomain", gs "local", gs "broadcasthost",
   gs "0.0.0.0", gs "allhosts", gs "allnodes", gs "allrouters",
   gs "localnet", gs "loopback", gs "mcastprefix"]

/-- `regex_to_skip.MatchString s`. -/
def regexToSkipMatch (s : GoStr) : Bool := skipSuffixes.any (fun suf => goEnds s suf)

/-- Model of `idnaze` (transformer.go lines 47–112).  `none` is the error
return.  Each whitespace-separated token is encoded independently; tokens on
the skip list pass through; the separator and a trailing comment are
reassembled verbatim.  A token containing `#` hits the dead
`SplitN(subject, "#", 1)` branch, whose `len(x) == 2` test always fails,
so Go returns an error there. -/
def idnaze (s0 : GoStr) : Option GoStr :=
  let s := goTrimSpace s0
  if s = [] ∨ goStarts s (gs "#") ∨ regexToSkipMatch s then some s
  else
    let separator : GoStr :=
      if goContains s [9] then [9] else if goContains s [32] then [32] else []
    if separator ≠ [] then
      let subjects := if goContains s (gs "#") then s.take (goIdx s (gs "#")) else s
      let comment := if goContains s (gs "#") then s.drop (goIdx s (gs "#") + 1) else []
      let step : GoStr → Option GoStr := fun subject =>
        if subject = [] ∨ regexToSkipMatch subject then some subject
        else if goContains subject (gs "#") then none
        else some (idnazeString subject)
      match (goSplit subjects separator).mapM step with
      | none => none
      | some encToks =>
        if comment ≠ [] then some (goJoin encToks separator ++ gs "#" ++ comment)
        else some (goJoin encToks separator)
    else some (idnazeString s)

/-! ## URL parsing (model of the fragment of `net/url.Parse` the engine uses)

Only `u.Host` and `u.Path` are consumed (by `ExtractNetLocationFromURL`);
the model reproduces exactly how those two fields and the error are computed
for inputs without percent-escapes or bracketed IPv6 hosts (both are noted
inline; no claim exercises them). -/

/-- Go's `stringContainsCTLByte`: any ASCII control byte makes `url.Parse`
fail. -/
def hasCTL (s : GoStr) : Bool := s.any (fun b => b < 0x20 ∨ b = 0x7F)

/-- ASCII letter byte. -/
def isAlphaB (b : Nat) : Bool := (65 ≤ b ∧ b ≤ 90) ∨ (97 ≤ b ∧ b ≤ 122)

/-- ASCII digit byte. -/
def isDigitB (b : Nat) : Bool := 48 ≤ b ∧ b ≤ 57

/-- Model of `net/url`'s `getScheme`: `none` is an error (colon at index 0);
otherwise `some (scheme, rest)` where `scheme = ""` when no valid scheme
delimiter was found. -/
def getSchemeAux : GoStr → Nat → GoStr → Option (GoStr × GoStr)
  | [], _, whole => some ([], whole)
  | c :: rest, i, whole =>
    if isAlphaB c then getSchemeAux rest (i + 1) whole
    else if isDigitB c ∨ c = 43 ∨ c = 45 ∨ c = 46 then
      if i = 0 then some ([], whole) else getSchemeAux rest (i + 1) whole
    else if c = 58 then
      if i = 0 then none else some (whole.take i, whole.drop (i + 1))
    else some ([], whole)

/-- `getScheme` entry point. -/
def getSchemeGo (s : GoStr) : Option (GoStr × GoStr) := getSchemeAux s 0 s

/-- Model of `parseAuthority`/`parseHost`: userinfo before the last `@` is
dropped; a trailing `:port` must be empty-or-digits (`validOptionalPort`).
Bracketed IPv6 hosts and percent-escaped hosts are outside the model and
yield an error. -/
def parseAuthorityGo (authority : GoStr) : Option GoStr :=
  let hostPart :=
    if goContains authority (gs "@") then authority.drop (goLastIdxByte authority 64 + 1)
    else authority
  if goStarts hostPart (gs "[") then none
  else if goContains hostPart (gs "%") then none
  else if goContains hostPart (gs ":") then
    let colonPort := hostPart.drop (goLastIdxByte hostPart 58)
    if (colonPort.drop 1).all isDigitB then some hostPart else none
  else some hostPart

/-- Model of `url.Parse` restricted to `(u.Host, u.Path)`; `none` is a parse
error.  Paths containing percent-escapes are outside the model. -/
def goURLParse (rawURL : GoStr) : Option (GoStr × GoStr) :=
  if hasCTL rawURL then none
  else
    let u := if goContains rawURL (gs "#") then rawURL.take (goIdx rawURL (gs "#")) else rawURL
    match getSchemeGo u with
    | none => none
    | some (scheme, rest0) =>
      let rest := if goContains rest0 (gs "?") then rest0.take (goIdx rest0 (gs "?")) else rest0
      if ¬goStarts rest (gs "/") ∧ scheme ≠ [] then some ([], [])
      else
        let seg := if goContains rest (gs "/") then rest.take (goIdx rest (gs "/")) else rest
        if ¬goStarts rest (gs "/") ∧ scheme = [] ∧ goContains seg (gs ":") then none
        else if (scheme ≠ [] ∨ ¬goStarts rest (gs "///")) ∧ goStarts rest (gs "//") then
          let after := rest.drop 2
          let authority := if goContains after (gs "/") then after.take (goIdx after (gs "/")) else after
          let pathPart := if goContains after (gs "/") then after.drop (goIdx after (gs "/")) else []
          match parseAuthorityGo authority with
          | none => none
          | some host => if goContains pathPart (gs "%") then none else some (host, pathPart)
        else if goContains rest (gs "%") then none
        else some ([], rest)

/-! ## The transformer (`internal/ruler/transformer.go`) -/

/-- Model of `ExtractNetLocationFromURL` (transformer.go lines 224–259).
`none` is the error return. -/
def ExtractNetLocationFromURL (rawURL : GoStr) : Option GoStr :=
  if rawURL = [] then none
  else
    match goURLParse rawURL with
    | none => none
    | some (host, path) =>
      let result :=
        if host = [] ∧ path ≠ [] then path
        else if host ≠ [] then
          if goContains host (gs ":") then host.take (goIdx host (gs ":"))
          else host
        else rawURL
      let result2 :=
        if goContains result (gs "//") then result.drop (goIdx result (gs "//") + 2) else result
      let result3 :=
        if goContains result2 (gs "/") then result2.take (goIdx result2 (gs "/")) else result2
      some result3

/-- Model of `NormalizeURL` (transformer.go lines 124–138). -/
def NormalizeURL (urlStr : GoStr) : GoStr :=
  match ExtractNetLocationFromURL urlStr with
  | none => urlStr
  | some netloc =>
    match idnaze netloc with
    | none => urlStr
    | some idnazedNetloc => goReplaceOne urlStr netloc idnazedNetloc

/-- Model of `NormalizeSubject` (transformer.go lines 150–176).  The checker
in `src/unnamed/part_004` calls a one-argument `NormalizeSubject`; the
transformer in the tree takes the `complementHandling` flag, which the
engine model passes from its `handle_complement` field.  Note the `- 1` in
the inline-comment strip: the byte before the first `#` is dropped too. -/
def NormalizeSubject (subject0 : GoStr) (complementHandling : Bool) : GoStr :=
  let subject := goTrimSpace subject0
  if subject = [] ∨ goStarts subject (gs "#") then []
  else if goStarts subject (gs "http://") ∨ goStarts subject (gs "https://") then
    NormalizeURL subject
  else
    let subject2 :=
      if goContains subject (gs "#") then goTrimSpace (subject.take (goIdx subject (gs "#") - 1))
      else subject
    let idnazedSubject := match idnaze subject2 with | none => subject2 | some v => v
    if complementHandling then goTrimPre idnazedSubject (gs "www.") else idnazedSubject

/-- Model of `NormalizeRule` (transformer.go lines 187–209).  Note the same
`- 1` in the inline-comment strip. -/
def NormalizeRule (rule0 : GoStr) : GoStr :=
  let rule := goTrimSpace rule0
  if rule = [] ∨ goStarts rule (gs "#") then []
  else if goStarts rule (gs "http://") ∨ goStarts rule (gs "https://") then NormalizeURL rule
  else
    let rule2 :=
      if goContains rule (gs "#") then goTrimSpace (rule.take (goIdx rule (gs "#") - 1))
      else rule
    match idnaze rule2 with
    | none => rule2
    | some v => v

/-! ## Regular expressions (model of `regexp.MatchString` on the fragment
the engine stores: literals, `.`, postfix `*`, and `|`-alternation)

Go's matcher works rune-wise; `.` matches any rune except newline and
`MatchString` is unanchored.  `MustCompile` panics on syntactically invalid
patterns; the model's matcher returns `false` when the pattern falls outside
the supported fragment (no stored pattern in this development does). -/

/-- A regex atom of the supported fragment. -/
inductive ReBase where
  | lit (c : Nat)
  | dot
deriving DecidableEq

/-- A concatenation of atoms, each optionally starred. -/
abbrev ReSeq := List (ReBase × Bool)

/-- Metacharacters outside the supported fragment. -/
def reMetaOther (c : Nat) : Bool :=
  c = 40 ∨ c = 41 ∨ c = 91 ∨ c = 93 ∨ c = 123 ∨ c = 125 ∨ c = 94 ∨ c = 36 ∨
  c = 43 ∨ c = 63 ∨ c = 92

/-- Parse one alternative (a rune list) into a sequence; `*` attaches to the
preceding atom, and `*` with no or an already-starred predecessor is a
syntax error, as in Go. -/
def reParseSeqAux : List Nat → ReSeq → Option ReSeq
  | [], acc => some acc
  | c :: rest, acc =>
    if c = 42 then
      match acc.getLast? with
      | none => none
      | some (b, starred) =>
        if starred then none else reParseSeqAux rest (acc.dropLast ++ [(b, true)])
    else if c = 46 then reParseSeqAux rest (acc ++ [(ReBase.dot, false)])
    else if reMetaOther c then none
    else reParseSeqAux rest (acc ++ [(ReBase.lit c, false)])

/-- Parse a pattern: split the bytes at `|` (a one-byte rune, so byte-level
splitting is exact), decode each alternative to runes, parse each. -/
def reParse (pat : GoStr) : Option (List ReSeq) :=
  (goSplit pat (gs "|")).mapM (fun alt => reParseSeqAux (goRunes alt) [])

/-- Does the atom match the rune? -/
def reBaseMatch : ReBase → Nat → Bool
  | .lit c, r => c = r
  | .dot, r => ¬(r = 10)

/-- Fuelled anchored-at-start matcher for one sequence. -/
def reMatchSeqF : Nat → ReSeq → List Nat → Bool
  | 0, _, _ => false
  | _ + 1, [], _ => true
  | fuel + 1, (b, false) :: rest, s =>
    match s with
    | [] => false
    | r :: srest => reBaseMatch b r ∧ reMatchSeqF fuel rest srest
  | fuel + 1, (b, true) :: rest, s =>
    reMatchSeqF fuel rest s ||
      (match s with
       | [] => false
       | r :: srest => reBaseMatch b r && reMatchSeqF fuel ((b, true) :: rest) srest)

/-- Does some alternative match a prefix of `s`? -/
def reMatchHere (alts : List ReSeq) (s : List Nat) : Bool :=
  alts.any (fun sq => reMatchSeqF (sq.length + s.length + 1) sq s)

/-- Fuelled scan over all start positions (unanchored match). -/
def reMatchFromF : Nat → List ReSeq → List Nat → Bool
  | 0, alts, s => reMatchHere alts s
  | fuel + 1, alts, s =>
    reMatchHere alts s ||
      (match s with
       | [] => false
       | _ :: rest => reMatchFromF fuel alts rest)

/-- Model of `compiled.MatchString(s)` for a pattern in the fragment. -/
def reMatchString (pat : GoStr) (s : GoStr) : Bool :=
  match reParse pat with
  | none => false
  | some alts => reMatchFromF (goRunes s).length alts (goRunes s)

/-! ## The rule engine (`src/unnamed/part_004` + the `InternalRuler` struct)

Go's `map[string][]string` reads a missing key as `nil` (= the empty slice),
and no code path distinguishes a missing key from a key holding an empty
slice, so the three indices are modelled as total functions from bucket key
to slice.  The compiled regex holds exactly the pattern text it was compiled
from, so `compiled_regexp` is modelled as that optional text. -/

structure InternalRuler where
  strict : GoStr → List GoStr
  ends : GoStr → List GoStr
  present : GoStr → List GoStr
  regex : GoStr
  compiled_regexp : Option GoStr
  handle_complement : Bool
  extensions : List GoStr
  /-- Modelled from the spec: the injected external extension feeds (the
  union of the root-zone registry list and the public-suffix list values)
  that `getKnownExtensions` fetches over the network on first use; the
  fetching code (`internal/data`) performs I/O and is represented by the
  value it would deliver. -/
  catalogFeed : List GoStr

/-- The `ALL` flag family. -/
def FlagsAll : List GoStr := [gs "ALL ", gs "ALL:", gs "ALL#", gs "ALL,", gs "ALL@"]

/-- The `REG` flag family. -/
def FlagsReg : List GoStr := [gs "REG ", gs "REG:", gs "REG#", gs "REG,", gs "REG@"]

/-- The `RZD`/`RZDB` flag family. -/
def FlagsRzdb : List GoStr :=
  [gs "RZD ", gs "RZD:", gs "RZD#", gs "RZD,", gs "RZD@",
   gs "RZDB ", gs "RZDB:", gs "RZDB#", gs "RZDB,", gs "RZDB@"]

/-- Model of `NewInternalRuler`. -/
def NewInternalRuler (handle_complement : Bool) (catalogFeed : List GoStr) : InternalRuler where
  strict := fun _ => []
  ends := fun _ => []
  present := fun _ => []
  regex := []
  compiled_regexp := none
  handle_complement := handle_complement
  extensions := []
  catalogFeed := catalogFeed

/-- `commonSearchKeyFromRule`: the first 4 bytes (or the whole string). -/
def commonSearchKeyFromRule (rule : GoStr) : GoStr :=
  if rule.length < 4 then rule else rule.take 4

/-- `endsSearchKeyFromRule`: the last 3 bytes (or the whole string). -/
def endsSearchKeyFromRule (rule : GoStr) : GoStr :=
  if rule.length < 3 then rule else rule.drop (rule.length - 3)

/-- `getKnownExtensions`: populate the catalog from the external feeds on
first use, then serve the cache. -/
def getKnownExtensions (f : InternalRuler) : InternalRuler × List GoStr :=
  if f.extensions.length = 0 then ({ f with extensions := f.catalogFeed }, f.catalogFeed)
  else (f, f.extensions)

/-- `pushStrictRule`: append under the 4-byte bucket key. -/
def pushStrictRule (f : InternalRuler) (rule : GoStr) : InternalRuler :=
  let searchKey := commonSearchKeyFromRule rule
  { f with strict := fun k => if k = searchKey then f.strict k ++ [rule] else f.strict k }

/-- `pullStrictRule`: remove the first occurrence from the bucket. -/
def pullStrictRule (f : InternalRuler) (rule : GoStr) : InternalRuler :=
  let searchKey := commonSearchKeyFromRule rule
  { f with strict := fun k => if k = searchKey then (f.strict k).erase rule else f.strict k }

/-- `pushEndsRule`. -/
def pushEndsRule (f : InternalRuler) (rule : GoStr) : InternalRuler :=
  let searchKey := endsSearchKeyFromRule rule
  { f with ends := fun k => if k = searchKey then f.ends k ++ [rule] else f.ends k }

/-- `pullEndsRule`. -/
def pullEndsRule (f : InternalRuler) (rule : GoStr) : InternalRuler :=
  let searchKey := endsSearchKeyFromRule rule
  { f with ends := fun k => if k = searchKey then (f.ends k).erase rule else f.ends k }

/-- `pushRegexRule`: extend both the pattern text and the compiled matcher's
source text with a new `|`-joined clause. -/
def pushRegexRule (f : InternalRuler) (rule : GoStr) : InternalRuler :=
  let regex2 := if f.regex = [] then rule else f.regex ++ gs "|" ++ rule
  let compiled2 :=
    match f.compiled_regexp with
    | none => some regex2
    | some t => some (t ++ gs "|" ++ rule)
  { f with regex := regex2, compiled_regexp := compiled2 }

/-- `pullRegexRule`: delete every occurrence of the clause text from the
accumulated pattern and recompile (or drop the matcher when empty). -/
def pullRegexRule (f : InternalRuler) (rule : GoStr) : InternalRuler :=
  if f.regex = [] then f
  else if f.compiled_regexp = none then f
  else
    let regex2 := goReplaceAll f.regex rule []
    if regex2 = [] then { f with regex := [], compiled_regexp := none }
    else { f with regex := regex2, compiled_regexp := some regex2 }

/-- `HasFlag`: case-insensitive flag+separator prefix test. -/
def HasFlag (flags : List GoStr) (rule : GoStr) : Bool :=
  flags.any (fun flag => goStarts (goTrimSpace (goToLower rule)) (goToLower flag))

/-- `cleanupFlags`: strip each matching flag prefix (either case) and trim. -/
def cleanupFlags (flags : List GoStr) (rule : GoStr) : GoStr :=
  flags.foldl
    (fun rule flag =>
      if ¬HasFlag [flag] rule then rule
      else goTrimSpace (goTrimPre (goTrimPre rule flag) (goToLower flag)))
    rule

/-- The `for _, extension := range ...` push loop of `parseRZDBFlagedRule`. -/
def rzdbPushLoop : InternalRuler → GoStr → List GoStr → InternalRuler
  | f, _, [] => f
  | f, record, extension :: rest =>
    let fa := pushStrictRule f (record ++ gs "." ++ extension)
    let fb :=
      if f.handle_complement then pushStrictRule fa (gs "www." ++ record ++ gs "." ++ extension)
      else fa
    rzdbPushLoop fb record rest

/-- The pull loop of `unparseRZDBFlagedRule`. -/
def rzdbPullLoop : InternalRuler → GoStr → List GoStr → InternalRuler
  | f, _, [] => f
  | f, record, extension :: rest =>
    let fa := pullStrictRule f (record ++ gs "." ++ extension)
    let fb :=
      if f.handle_complement then pullStrictRule fa (gs "www." ++ record ++ gs "." ++ extension)
      else fa
    rzdbPullLoop fb record rest

/-- `parseAllFlaggedRule` (part_004 lines 318–343). -/
def parseAllFlaggedRule (f : InternalRuler) (rule : GoStr) : Bool × InternalRuler :=
  if ¬HasFlag FlagsAll rule then (false, f)
  else
    let record := cleanupFlags FlagsAll rule
    if goStarts record (gs ".") then
      let f2 :=
        if 1 < goCount record (gs ".") then
          let new_record := goTrimPre record (gs ".")
          let fa := if f.handle_complement then pushStrictRule f (gs "www." ++ new_record) else f
          pushStrictRule fa new_record
        else f
      (true, pushEndsRule f2 record)
    else
      (true, pushStrictRule (pushEndsRule f (gs "." ++ record)) record)

/-- `unparseAllFlaggedRule` (part_004 lines 345–372). -/
def unparseAllFlaggedRule (f : InternalRuler) (rule : GoStr) : Bool × InternalRuler :=
  if ¬HasFlag FlagsAll rule then (false, f)
  else
    let record := cleanupFlags FlagsAll rule
    if goStarts record (gs ".") then
      let f2 :=
        if 1 < goCount record (gs ".") then
          let new_record := goTrimPre record (gs ".")
          let fa := if f.handle_complement then pullStrictRule f (gs "www." ++ new_record) else f
          pullStrictRule fa new_record
        else f
      (true, pullEndsRule f2 record)
    else
      (true, pullStrictRule (pullEndsRule f (gs "." ++ record)) record)

/-- `parseRegexFlaggedRule`. -/
def parseRegexFlaggedRule (f : InternalRuler) (rule : GoStr) : Bool × InternalRuler :=
  if ¬HasFlag FlagsReg rule then (false, f)
  else (true, pushRegexRule f (cleanupFlags FlagsReg rule))

/-- `unparseRegexFlaggedRule`. -/
def unparseRegexFlaggedRule (f : InternalRuler) (rule : GoStr) : Bool × InternalRuler :=
  if ¬HasFlag FlagsReg rule then (false, f)
  else (true, pullRegexRule f (cleanupFlags FlagsReg rule))

/-- `parseRZDBFlagedRule` (part_004 lines 398–424).  Note that the source
repeats the complement `www.`-strip conditional twice (lines 407–413), so
the prefix is removed up to two times here. -/
def parseRZDBFlagedRule (f : InternalRuler) (rule : GoStr) : Bool × InternalRuler :=
  if ¬HasFlag FlagsRzdb rule then (false, f)
  else
    let record0 := cleanupFlags FlagsRzdb rule
    let record1 :=
      if f.handle_complement ∧ goStarts record0 (gs "www.") then goTrimPre record0 (gs "www.")
      else record0
    let record :=
      if f.handle_complement ∧ goStarts record1 (gs "www.") then goTrimPre record1 (gs "www.")
      else record1
    let (f2, exts) := getKnownExtensions f
    (true, rzdbPushLoop f2 record exts)

/-- `unparseRZDBFlagedRule` (part_004 lines 426–448): here the complement
`www.`-strip appears only once. -/
def unparseRZDBFlagedRule (f : InternalRuler) (rule : GoStr) : Bool × InternalRuler :=
  if ¬HasFlag FlagsRzdb rule then (false, f)
  else
    let record0 := cleanupFlags FlagsRzdb rule
    let record :=
      if f.handle_complement ∧ goStarts record0 (gs "www.") then goTrimPre record0 (gs "www.")
      else record0
    let (f2, exts) := getKnownExtensions f
    (true, rzdbPullLoop f2 record exts)

/-- `parsePlainRule` (part_004 lines 450–477). -/
def parsePlainRule (f : InternalRuler) (rule : GoStr) : Bool × InternalRuler :=
  if f.handle_complement then
    if goStarts rule (gs "http://") ∨ goStarts rule (gs "https://") then
      match ExtractNetLocationFromURL rule with
      | none => (false, f)
      | some netloc =>
        let f2 :=
          if goStarts netloc (gs "www.") then
            pushStrictRule f (goReplaceAll rule netloc (goTrimPre netloc (gs "www.")))
          else pushStrictRule f (goReplaceAll rule netloc (gs "www." ++ netloc))
        (true, pushStrictRule f2 rule)
    else
      let f2 :=
        if goStarts rule (gs "www.") then pushStrictRule f (goTrimPre rule (gs "www."))
        else pushStrictRule f (gs "www." ++ rule)
      (true, pushStrictRule f2 rule)
  else (true, pushStrictRule f rule)

/-- `unparsePlainRule` (part_004 lines 479–506). -/
def unparsePlainRule (f : InternalRuler) (rule : GoStr) : Bool × InternalRuler :=
  if f.handle_complement then
    if goStarts rule (gs "http://") ∨ goStarts rule (gs "https://") then
      match ExtractNetLocationFromURL rule with
      | none => (false, f)
      | some netloc =>
        let f2 :=
          if goStarts netloc (gs "www.") then
            pullStrictRule f (goReplaceAll rule netloc (goTrimPre netloc (gs "www.")))
          else pullStrictRule f (goReplaceAll rule netloc (gs "www." ++ netloc))
        (true, pullStrictRule f2 rule)
    else
      let f2 :=
        if goStarts rule (gs "www.") then pullStrictRule f (goTrimPre rule (gs "www."))
        else pullStrictRule f (gs "www." ++ rule)
      (true, pullStrictRule f2 rule)
  else (true, pullStrictRule f rule)

/-- `AddRule` (part_004 lines 74–89): normalize, skip empty, then try the
classifiers in order with Go's short-circuit `||` (a classifier that returns
`false` has not touched the state). -/
def AddRule (f : InternalRuler) (rule : GoStr) : Bool × InternalRuler :=
  let normalizedRule := NormalizeRule rule
  if normalizedRule = [] then (false, f)
  else
    let (b1, f1) := parseAllFlaggedRule f normalizedRule
    if b1 then (true, f1)
    else
      let (b2, f2) := parseRegexFlaggedRule f1 normalizedRule
      if b2 then (true, f2)
      else
        let (b3, f3) := parseRZDBFlagedRule f2 normalizedRule
        if b3 then (true, f3)
        else parsePlainRule f3 normalizedRule

/-- `RemoveRule` (part_004 lines 100–115). -/
def RemoveRule (f : InternalRuler) (rule : GoStr) : Bool × InternalRuler :=
  let normalizedRule := NormalizeRule rule
  if normalizedRule = [] then (false, f)
  else
    let (b1, f1) := unparseAllFlaggedRule f normalizedRule
    if b1 then (true, f1)
    else
      let (b2, f2) := unparseRegexFlaggedRule f1 normalizedRule
      if b2 then (true, f2)
      else
        let (b3, f3) := unparseRZDBFlagedRule f2 normalizedRule
        if b3 then (true, f3)
        else unparsePlainRule f3 normalizedRule

/-- The per-candidate probe of `IsWhitelisted`: strict bucket, present
bucket, ends bucket (true suffix test), then the compiled regex. -/
def checkSubject (f : InternalRuler) (sub : GoStr) : Bool :=
  let commonKey := commonSearchKeyFromRule sub
  if slicesContains (f.strict commonKey) sub then true
  else if slicesContains (f.present commonKey) sub then true
  else
    let endKey := endsSearchKeyFromRule sub
    if (f.ends endKey).any (fun rule => goEnds sub rule) then true
    else
      match f.compiled_regexp with
      | none => false
      | some pat => reMatchString pat sub

/-- `IsWhitelisted` (part_004 lines 117–190). -/
def IsWhitelisted (f : InternalRuler) (subject : GoStr) : Bool :=
  let normalizedSubject := NormalizeSubject subject f.handle_complement
  if normalizedSubject = [] then false
  else
    match ExtractNetLocationFromURL normalizedSubject with
    | none => false
    | some netloc =>
      let subjects :=
        [netloc] ++
          (if goStarts normalizedSubject (gs "http://") ∨
              goStarts normalizedSubject (gs "https://")
           then [normalizedSubject] else [])
      subjects.any (checkSubject f)

/-! ## The public wrapper (`pkg/givilsta/ruler.go`) -/

/-- `IsSubjectWhitelisted`. -/
def IsSubjectWhitelisted (g : InternalRuler) (subject : GoStr) : Bool := IsWhitelisted g subject

/-- `IsSubjectBlacklisted`: the negation of `IsSubjectWhitelisted`. -/
def IsSubjectBlacklisted (g : InternalRuler) (subject : GoStr) : Bool :=
  !IsSubjectWhitelisted g subject

/-- The token list a hosts-file-style line contributes: trimmed, blank and
comment-only lines dropped, inline comment stripped (no `- 1` here),
whitespace-split, adjacent duplicates collapsed. -/
def lineSubjects (line : GoStr) : List GoStr :=
  let normalized_line := goTrimSpace line
  if normalized_line = [] ∨ goStarts normalized_line (gs "#") then []
  else
    let normalized_line2 :=
      if goContains normalized_line (gs "#") then
        normalized_line.take (goIdx normalized_line (gs "#"))
      else normalized_line
    slicesCompact (goFields normalized_line2)

/-- `GetWhitelistedFromLine` (ruler.go lines 126–149): the loop-and-append
over the line's subjects is `List.filter`. -/
def GetWhitelistedFromLine (g : InternalRuler) (line : GoStr) : List GoStr :=
  (lineSubjects line).filter (fun subject => IsSubjectWhitelisted g subject)

/-- `GetBlacklistedFromLine` (ruler.go lines 164–187). -/
def GetBlacklistedFromLine (g : InternalRuler) (line : GoStr) : List GoStr :=
  (lineSubjects line).filter (fun subject => IsSubjectBlacklisted g subject)

/-! ## Verification infrastructure -/

/-- One bucketed append (the shape of `pushStrictRule`/`pushEndsRule` on the
underlying map). -/
def mapPush (key : GoStr → GoStr) (g : GoStr → List GoStr) (x : GoStr) : GoStr → List GoStr :=
  fun k => if k = key x then g k ++ [x] else g k

/-- One bucketed first-occurrence removal (the shape of `pullStrictRule`/
`pullEndsRule`). -/
def mapPull (key : GoStr → GoStr) (g : GoStr → List GoStr) (x : GoStr) : GoStr → List GoStr :=
  fun k => if k = key x then (g k).erase x else g k

/-- A sequence of bucketed appends. -/
def foldPushK (key : GoStr → GoStr) (g : GoStr → List GoStr) (xs : List GoStr) : GoStr → List GoStr :=
  xs.foldl (mapPush key) g

/-- A sequence of bucketed removals. -/
def foldPullK (key : GoStr → GoStr) (g : GoStr → List GoStr) (xs : List GoStr) : GoStr → List GoStr :=
  xs.foldl (mapPull key) g

/-- The strict entries an `ALL`-flagged rule with body `record` pushes (and
its removal pulls). -/
def allStrictList (hc : Bool) (record : GoStr) : List GoStr :=
  if goStarts record (gs ".") then
    if 1 < goCount record (gs ".") then
      (if hc then [gs "www." ++ goTrimPre record (gs ".")] else []) ++ [goTrimPre record (gs ".")]
    else []
  else [record]

/-- The ends entries an `ALL`-flagged rule with body `record` pushes. -/
def allEndsList (record : GoStr) : List GoStr :=
  if goStarts record (gs ".") then [record] else [gs "." ++ record]

/-- The strict entries a broad rule with body `record` pushes per extension. -/
def rzdbList (hc : Bool) (record : GoStr) (exts : List GoStr) : List GoStr :=
  exts.flatMap (fun e =>
    [record ++ gs "." ++ e] ++ (if hc then [gs "www." ++ record ++ gs "." ++ e] else []))

/-- The strict entries a plain rule pushes, `none` when the complement-URL
branch fails to extract a net location (no pushes then). -/
def plainList (hc : Bool) (rule : GoStr) : Option (List GoStr) :=
  if hc then
    if goStarts rule (gs "http://") ∨ goStarts rule (gs "https://") then
      match ExtractNetLocationFromURL rule with
      | none => none
      | some netloc =>
        some [if goStarts netloc (gs "www.") then
                goReplaceAll rule netloc (goTrimPre netloc (gs "www."))
              else goReplaceAll rule netloc (gs "www." ++ netloc),
              rule]
    else
      some [if goStarts rule (gs "www.") then goTrimPre rule (gs "www.")
            else gs "www." ++ rule,
            rule]
  else some [rule]

/-- Two engines that agree on everything `IsWhitelisted` reads: bucket
membership of the strict and ends indices, the present index, the pattern
state, and the complement flag (the extension catalog cache is not read at
query time). -/
def SameVerdictFields (f g : InternalRuler) : Prop :=
  (∀ k y, y ∈ f.strict k ↔ y ∈ g.strict k) ∧
  (∀ k y, y ∈ f.ends k ↔ y ∈ g.ends k) ∧
  f.present = g.present ∧ f.regex = g.regex ∧
  f.compiled_regexp = g.compiled_regexp ∧ f.handle_complement = g.handle_complement

/-- Total form of the Unicode-domain line encoding: `idnaze` with its
caller-side fallback to the input on error. -/
def idnazeOrSelf (s : GoStr) : GoStr :=
  match idnaze s with
  | none => s
  | some v => v

/-- The body of an `RZDB` rule after the single complement strip that
`unparseRZDBFlagedRule` performs. -/
def rzdbStripOnce (f : InternalRuler) (n : GoStr) : GoStr :=
  if f.handle_complement = true ∧ goStarts (cleanupFlags FlagsRzdb n) (gs "www.") = true
  then goTrimPre (cleanupFlags FlagsRzdb n) (gs "www.")
  else cleanupFlags FlagsRzdb n

/-- Decidable statement that none of the entries a `RemoveRule` of the
normalized rule `n` would pull is present in the respective index of `f`
(for a regex rule: that the clause text occurs nowhere in the accumulated
pattern, since removal is textual). -/
def removalTargetsAbsent (f : InternalRuler) (n : GoStr) : Bool :=
  if HasFlag FlagsAll n then
    (allStrictList f.handle_complement (cleanupFlags FlagsAll n)).all
      (fun x => decide (x ∉ f.strict (commonSearchKeyFromRule x))) &&
    (allEndsList (cleanupFlags FlagsAll n)).all
      (fun x => decide (x ∉ f.ends (endsSearchKeyFromRule x)))
  else if HasFlag FlagsReg n then
    !goContains f.regex (cleanupFlags FlagsReg n)
  else if HasFlag FlagsRzdb n then
    (rzdbList f.handle_complement (rzdbStripOnce f n) (getKnownExtensions f).2).all
      (fun x => decide (x ∉ f.strict (commonSearchKeyFromRule x)))
  else
    match plainList f.handle_complement n with
    | none => true
    | some xs => xs.all (fun x => decide (x ∉ f.strict (commonSearchKeyFromRule x)))

/-! ## Lemmas: bucketed push/pull cancellation -/

theorem count_append_one (l : List GoStr) (x y : GoStr) :
    (l ++ [x]).count y = l.count y + (if x = y then 1 else 0) := by
  rw [List.count_append]
  congr 1
  by_cases hxy : x = y
  · simp [hxy, List.count_singleton]
  · rw [if_neg hxy, List.count_eq_zero, List.mem_singleton]
    exact fun h => hxy h.symm

theorem count_erase_one (l : List GoStr) (x y : GoStr) :
    (l.erase x).count y = l.count y - (if x = y then 1 else 0) := by
  rw [List.count_erase]
  by_cases hxy : x = y <;> simp [hxy]

theorem count_cons_my (l : List GoStr) (x y : GoStr) :
    (x :: l).count y = l.count y + (if x = y then 1 else 0) := by
  rw [List.count_cons]
  by_cases hxy : x = y <;> simp [hxy]

theorem count_foldPushK (key : GoStr → GoStr) (xs : List GoStr) (g : GoStr → List GoStr)
    (k y : GoStr) :
    ((foldPushK key g xs) k).count y =
      (g k).count y + (if key y = k then xs.count y else 0) := by
  induction xs generalizing g with
  | nil => simp [foldPushK]
  | cons x xs ih =>
    simp only [foldPushK, List.foldl_cons] at *
    rw [ih, count_cons_my]
    simp only [mapPush]
    by_cases hxy : x = y
    · subst hxy
      by_cases hk : key x = k
      · rw [if_pos hk.symm, count_append_one, if_pos rfl, if_pos hk, if_pos hk]
        omega
      · rw [if_neg (fun h => hk h.symm), if_neg hk, if_neg hk]
    · by_cases hk : k = key x
      · rw [if_pos hk, count_append_one, if_neg hxy]
        split_ifs <;> omega
      · rw [if_neg hk]
        split_ifs <;> omega

theorem count_foldPullK (key : GoStr → GoStr) (xs : List GoStr) (g : GoStr → List GoStr)
    (k y : GoStr) :
    ((foldPullK key g xs) k).count y =
      (g k).count y - (if key y = k then xs.count y else 0) := by
  induction xs generalizing g with
  | nil => simp [foldPullK]
  | cons x xs ih =>
    simp only [foldPullK, List.foldl_cons] at *
    rw [ih]
    simp only [mapPull]
    by_cases hxy : x = y
    · subst hxy
      by_cases hk : key x = k
      · rw [if_pos hk.symm, count_erase_one, if_pos rfl, if_pos hk, if_pos hk, count_cons_my,
          if_pos rfl]
        omega
      · rw [if_neg (fun h => hk h.symm), if_neg hk, if_neg hk]
    · by_cases hk : k = key x
      · rw [if_pos hk, count_erase_one, if_neg hxy, count_cons_my, if_neg hxy]
        split_ifs <;> omega
      · rw [if_neg hk, count_cons_my, if_neg hxy]
        split_ifs <;> omega

theorem count_push_pull (key : GoStr → GoStr) (xs : List GoStr) (g : GoStr → List GoStr)
    (k y : GoStr) :
    ((foldPullK key (foldPushK key g xs) xs) k).count y = (g k).count y := by
  rw [count_foldPullK, count_foldPushK]
  split_ifs <;> omega

theorem mem_push_pull (key : GoStr → GoStr) (xs : List GoStr) (g : GoStr → List GoStr)
    (k y : GoStr) :
    y ∈ (foldPullK key (foldPushK key g xs) xs) k ↔ y ∈ g k := by
  rw [← List.count_pos_iff, ← List.count_pos_iff, count_push_pull]

/-! ## Lemmas: the verdict only reads what `SameVerdictFields` tracks -/

theorem slicesContains_congr {l m : List GoStr} (h : ∀ y, y ∈ l ↔ y ∈ m) (x : GoStr) :
    slicesContains l x = slicesContains m x := by
  rw [Bool.eq_iff_iff]
  simp only [slicesContains, List.any_eq_true, decide_eq_true_eq]
  constructor
  · rintro ⟨r, hr, rfl⟩
    exact ⟨r, (h r).mp hr, rfl⟩
  · rintro ⟨r, hr, rfl⟩
    exact ⟨r, (h r).mpr hr, rfl⟩

theorem anySuffix_congr {l m : List GoStr} (h : ∀ y, y ∈ l ↔ y ∈ m) (s : GoStr) :
    (l.any (fun rule => goEnds s rule)) = (m.any (fun rule => goEnds s rule)) := by
  rw [Bool.eq_iff_iff]
  simp only [List.any_eq_true]
  constructor
  · rintro ⟨r, hr, he⟩
    exact ⟨r, (h r).mp hr, he⟩
  · rintro ⟨r, hr, he⟩
    exact ⟨r, (h r).mpr hr, he⟩

theorem checkSubject_congr {f g : InternalRuler} (h : SameVerdictFields f g) (s : GoStr) :
    checkSubject f s = checkSubject g s := by
  obtain ⟨hs, he, hp, hr, hc, hh⟩ := h
  simp only [checkSubject]
  rw [hp, hc, slicesContains_congr (hs (commonSearchKeyFromRule s)),
    anySuffix_congr (he (endsSearchKeyFromRule s))]

theorem IsWhitelisted_congr {f g : InternalRuler} (h : SameVerdictFields f g) (s : GoStr) :
    IsWhitelisted f s = IsWhitelisted g s := by
  have hfun : checkSubject f = checkSubject g := funext (checkSubject_congr h)
  unfold IsWhitelisted
  rw [h.2.2.2.2.2, hfun]

/-! ## Lemmas: what each classifier branch does to the store -/

theorem goStarts_iff (s pre : GoStr) : goStarts s pre = true ↔ s.take pre.length = pre := by
  simp [goStarts]

theorem parseAll_eq (f : InternalRuler) (n : GoStr) (h : HasFlag FlagsAll n = true) :
    parseAllFlaggedRule f n =
      (true,
        { f with
          strict := foldPushK commonSearchKeyFromRule f.strict
            (allStrictList f.handle_complement (cleanupFlags FlagsAll n)),
          ends := foldPushK endsSearchKeyFromRule f.ends
            (allEndsList (cleanupFlags FlagsAll n)) }) := by
  unfold parseAllFlaggedRule
  rw [if_neg (by simp [h])]
  simp only [allStrictList, allEndsList]
  split_ifs <;> rfl

theorem unparseAll_eq (f : InternalRuler) (n : GoStr) (h : HasFlag FlagsAll n = true) :
    unparseAllFlaggedRule f n =
      (true,
        { f with
          strict := foldPullK commonSearchKeyFromRule f.strict
            (allStrictList f.handle_complement (cleanupFlags FlagsAll n)),
          ends := foldPullK endsSearchKeyFromRule f.ends
            (allEndsList (cleanupFlags FlagsAll n)) }) := by
  unfold unparseAllFlaggedRule
  rw [if_neg (by simp [h])]
  simp only [allStrictList, allEndsList]
  split_ifs <;> rfl

theorem rzdbPushLoop_eq (record : GoStr) (exts : List GoStr) (f : InternalRuler) :
    rzdbPushLoop f record exts =
      { f with
        strict := foldPushK commonSearchKeyFromRule f.strict
          (rzdbList f.handle_complement record exts) } := by
  induction exts generalizing f with
  | nil => rfl
  | cons e rest ih =>
    simp only [rzdbPushLoop]
    by_cases hc : f.handle_complement
    · rw [if_pos hc, ih]
      simp only [pushStrictRule, rzdbList, List.flatMap_cons, hc, if_true, List.cons_append,
        List.nil_append, List.append_assoc, foldPushK, List.foldl_cons, mapPush]
      rfl
    · rw [if_neg hc, ih]
      simp only [Bool.not_eq_true] at hc
      simp only [pushStrictRule, rzdbList, List.flatMap_cons, hc, Bool.false_eq_true, if_false,
        List.cons_append, List.nil_append, List.append_nil, foldPushK, List.foldl_cons, mapPush]
      rfl

theorem rzdbPullLoop_eq (record : GoStr) (exts : List GoStr) (f : InternalRuler) :
    rzdbPullLoop f record exts =
      { f with
        strict := foldPullK commonSearchKeyFromRule f.strict
          (rzdbList f.handle_complement record exts) } := by
  induction exts generalizing f with
  | nil => rfl
  | cons e rest ih =>
    simp only [rzdbPullLoop]
    by_cases hc : f.handle_complement
    · rw [if_pos hc, ih]
      simp only [pullStrictRule, rzdbList, List.flatMap_cons, hc, if_true, List.cons_append,
        List.nil_append, List.append_assoc, foldPullK, List.foldl_cons, mapPull]
      rfl
    · rw [if_neg hc, ih]
      simp only [Bool.not_eq_true] at hc
      simp only [pullStrictRule, rzdbList, List.flatMap_cons, hc, Bool.false_eq_true, if_false,
        List.cons_append, List.nil_append, List.append_nil, foldPullK, List.foldl_cons, mapPull]
      rfl

theorem rzdb_strip_eq (hc : Bool) (record0 : GoStr)
    (h : hc = true → goStarts record0 (gs "www.www.") = false) :
    (if hc = true ∧ goStarts (if hc = true ∧ goStarts record0 (gs "www.")
          then goTrimPre record0 (gs "www.") else record0) (gs "www.")
      then goTrimPre (if hc = true ∧ goStarts record0 (gs "www.")
          then goTrimPre record0 (gs "www.") else record0) (gs "www.")
      else (if hc = true ∧ goStarts record0 (gs "www.")
          then goTrimPre record0 (gs "www.") else record0)) =
    (if hc = true ∧ goStarts record0 (gs "www.") then goTrimPre record0 (gs "www.")
     else record0) := by
  cases hc with
  | false => simp
  | true =>
    by_cases h1 : goStarts record0 (gs "www.") = true
    · have hin :
          (if true = true ∧ goStarts record0 (gs "www.") = true
           then goTrimPre record0 (gs "www.") else record0) = goTrimPre record0 (gs "www.") :=
        if_pos ⟨rfl, h1⟩
      rw [hin]
      have h2 : goStarts (goTrimPre record0 (gs "www.")) (gs "www.") = false := by
        cases hg : goStarts (goTrimPre record0 (gs "www.")) (gs "www.") with
        | false => rfl
        | true =>
          exfalso
          have ht1 : record0.take 4 = gs "www." := by
            simpa using (goStarts_iff record0 (gs "www.")).mp h1
          have ht2 : (record0.drop 4).take 4 = gs "www." := by
            have hthis := (goStarts_iff _ (gs "www.")).mp hg
            simp only [goTrimPre, h1, if_pos] at hthis
            simpa using hthis
          have ht8 : record0.take 8 = gs "www.www." := by
            have htk : record0.take (4 + 4) = record0.take 4 ++ (record0.drop 4).take 4 :=
              List.take_add record0 4 4
            rw [ht1, ht2] at htk
            have : gs "www." ++ gs "www." = gs "www.www." := by decide
            rw [this] at htk
            simpa using htk
          have h8 : goStarts record0 (gs "www.www.") = true := by
            rw [goStarts_iff]
            simpa using ht8
          have hf := h rfl
          rw [h8] at hf
          exact Bool.true_eq_false.mp hf
      rw [if_neg (fun hcon => by rw [h2] at hcon; exact Bool.false_ne_true hcon.2)]
    · have h1' : goStarts record0 (gs "www.") = false := by
        revert h1
        cases goStarts record0 (gs "www.") <;> simp
      have hin :
          (if true = true ∧ goStarts record0 (gs "www.") = true
           then goTrimPre record0 (gs "www.") else record0) = record0 :=
        if_neg (fun hcon => by rw [h1'] at hcon; exact Bool.false_ne_true hcon.2)
      rw [hin]
      exact hin

theorem parsePlain_eq (f : InternalRuler) (rule : GoStr) :
    parsePlainRule f rule =
      match plainList f.handle_complement rule with
      | none => (false, f)
      | some xs => (true, { f with strict := foldPushK commonSearchKeyFromRule f.strict xs }) := by
  unfold parsePlainRule plainList
  by_cases hc : f.handle_complement
  · rw [if_pos hc, if_pos hc]
    by_cases hurl : goStarts rule (gs "http://") = true ∨ goStarts rule (gs "https://") = true
    · rw [if_pos hurl, if_pos hurl]
      cases hE : ExtractNetLocationFromURL rule with
      | none => rfl
      | some netloc =>
        dsimp only
        by_cases hw : goStarts netloc (gs "www.") = true
        · rw [if_pos hw, if_pos hw]
          rfl
        · rw [if_neg hw, if_neg hw]
          rfl
    · rw [if_neg hurl, if_neg hurl]
      by_cases hw : goStarts rule (gs "www.") = true
      · rw [if_pos hw, if_pos hw]
        rfl
      · rw [if_neg hw, if_neg hw]
        rfl
  · rw [if_neg hc, if_neg hc]
    rfl

theorem unparsePlain_eq (f : InternalRuler) (rule : GoStr) :
    unparsePlainRule f rule =
      match plainList f.handle_complement rule with
      | none => (false, f)
      | some xs => (true, { f with strict := foldPullK commonSearchKeyFromRule f.strict xs }) := by
  unfold unparsePlainRule plainList
  by_cases hc : f.handle_complement
  · rw [if_pos hc, if_pos hc]
    by_cases hurl : goStarts rule (gs "http://") = true ∨ goStarts rule (gs "https://") = true
    · rw [if_pos hurl, if_pos hurl]
      cases hE : ExtractNetLocationFromURL rule with
      | none => rfl
      | some netloc =>
        dsimp only
        by_cases hw : goStarts netloc (gs "www.") = true
        · rw [if_pos hw, if_pos hw]
          rfl
        · rw [if_neg hw, if_neg hw]
          rfl
    · rw [if_neg hurl, if_neg hurl]
      by_cases hw : goStarts rule (gs "www.") = true
      · rw [if_pos hw, if_pos hw]
        rfl
      · rw [if_neg hw, if_neg hw]
        rfl
  · rw [if_neg hc, if_neg hc]
    rfl

theorem parseAll_not (f : InternalRuler) (n : GoStr) (h : HasFlag FlagsAll n = false) :
    parseAllFlaggedRule f n = (false, f) := by
  unfold parseAllFlaggedRule
  rw [if_pos (by simp [h])]

theorem unparseAll_not (f : InternalRuler) (n : GoStr) (h : HasFlag FlagsAll n = false) :
    unparseAllFlaggedRule f n = (false, f) := by
  unfold unparseAllFlaggedRule
  rw [if_pos (by simp [h])]

theorem parseReg_not (f : InternalRuler) (n : GoStr) (h : HasFlag FlagsReg n = false) :
    parseRegexFlaggedRule f n = (false, f) := by
  unfold parseRegexFlaggedRule
  rw [if_pos (by simp [h])]

theorem unparseReg_not (f : InternalRuler) (n : GoStr) (h : HasFlag FlagsReg n = false) :
    unparseRegexFlaggedRule f n = (false, f) := by
  unfold unparseRegexFlaggedRule
  rw [if_pos (by simp [h])]

theorem parseRzdb_not (f : InternalRuler) (n : GoStr) (h : HasFlag FlagsRzdb n = false) :
    parseRZDBFlagedRule f n = (false, f) := by
  unfold parseRZDBFlagedRule
  rw [if_pos (by simp [h])]

theorem unparseRzdb_not (f : InternalRuler) (n : GoStr) (h : HasFlag FlagsRzdb n = false) :
    unparseRZDBFlagedRule f n = (false, f) := by
  unfold unparseRZDBFlagedRule
  rw [if_pos (by simp [h])]

theorem parseRzdb_eq (f : InternalRuler) (n : GoStr) (h : HasFlag FlagsRzdb n = true) :
    parseRZDBFlagedRule f n =
      (true, rzdbPushLoop (getKnownExtensions f).1
        (if f.handle_complement = true ∧
            goStarts (if f.handle_complement = true ∧
                goStarts (cleanupFlags FlagsRzdb n) (gs "www.") = true
              then goTrimPre (cleanupFlags FlagsRzdb n) (gs "www.")
              else cleanupFlags FlagsRzdb n) (gs "www.") = true
          then goTrimPre (if f.handle_complement = true ∧
                goStarts (cleanupFlags FlagsRzdb n) (gs "www.") = true
              then goTrimPre (cleanupFlags FlagsRzdb n) (gs "www.")
              else cleanupFlags FlagsRzdb n) (gs "www.")
          else (if f.handle_complement = true ∧
                goStarts (cleanupFlags FlagsRzdb n) (gs "www.") = true
              then goTrimPre (cleanupFlags FlagsRzdb n) (gs "www.")
              else cleanupFlags FlagsRzdb n))
        (getKnownExtensions f).2) := by
  unfold parseRZDBFlagedRule
  rw [if_neg (by simp [h])]

theorem unparseRzdb_eq (f : InternalRuler) (n : GoStr) (h : HasFlag FlagsRzdb n = true) :
    unparseRZDBFlagedRule f n =
      (true, rzdbPullLoop (getKnownExtensions f).1
        (if f.handle_complement = true ∧ goStarts (cleanupFlags FlagsRzdb n) (gs "www.") = true
         then goTrimPre (cleanupFlags FlagsRzdb n) (gs "www.")
         else cleanupFlags FlagsRzdb n)
        (getKnownExtensions f).2) := by
  unfold unparseRZDBFlagedRule
  rw [if_neg (by simp [h])]

theorem addRule_to_all (f : InternalRuler) (r : GoStr) (hnil : ¬ NormalizeRule r = [])
    (hall : HasFlag FlagsAll (NormalizeRule r) = true) :
    AddRule f r = parseAllFlaggedRule f (NormalizeRule r) := by
  unfold AddRule
  rw [if_neg hnil, parseAll_eq f _ hall]
  rfl

theorem removeRule_to_all (f : InternalRuler) (r : GoStr) (hnil : ¬ NormalizeRule r = [])
    (hall : HasFlag FlagsAll (NormalizeRule r) = true) :
    RemoveRule f r = unparseAllFlaggedRule f (NormalizeRule r) := by
  unfold RemoveRule
  rw [if_neg hnil, unparseAll_eq f _ hall]
  rfl

theorem addRule_to_rzdb (f : InternalRuler) (r : GoStr) (hnil : ¬ NormalizeRule r = [])
    (hallF : HasFlag FlagsAll (NormalizeRule r) = false)
    (hregF : HasFlag FlagsReg (NormalizeRule r) = false)
    (hrzb : HasFlag FlagsRzdb (NormalizeRule r) = true) :
    AddRule f r = parseRZDBFlagedRule f (NormalizeRule r) := by
  unfold AddRule
  rw [if_neg hnil, parseAll_not f _ hallF]
  dsimp only
  rw [parseReg_not f _ hregF]
  dsimp only
  rw [parseRzdb_eq f _ hrzb]
  rfl

theorem removeRule_to_rzdb (f : InternalRuler) (r : GoStr) (hnil : ¬ NormalizeRule r = [])
    (hallF : HasFlag FlagsAll (NormalizeRule r) = false)
    (hregF : HasFlag FlagsReg (NormalizeRule r) = false)
    (hrzb : HasFlag FlagsRzdb (NormalizeRule r) = true) :
    RemoveRule f r = unparseRZDBFlagedRule f (NormalizeRule r) := by
  unfold RemoveRule
  rw [if_neg hnil, unparseAll_not f _ hallF]
  dsimp only
  rw [unparseReg_not f _ hregF]
  dsimp only
  rw [unparseRzdb_eq f _ hrzb]
  rfl

theorem addRule_to_plain (f : InternalRuler) (r : GoStr) (hnil : ¬ NormalizeRule r = [])
    (hallF : HasFlag FlagsAll (NormalizeRule r) = false)
    (hregF : HasFlag FlagsReg (NormalizeRule r) = false)
    (hrzbF : HasFlag FlagsRzdb (NormalizeRule r) = false) :
    AddRule f r = parsePlainRule f (NormalizeRule r) := by
  unfold AddRule
  rw [if_neg hnil, parseAll_not f _ hallF]
  dsimp only
  rw [parseReg_not f _ hregF]
  dsimp only
  rw [parseRzdb_not f _ hrzbF]
  rfl

theorem removeRule_to_plain (f : InternalRuler) (r : GoStr) (hnil : ¬ NormalizeRule r = [])
    (hallF : HasFlag FlagsAll (NormalizeRule r) = false)
    (hregF : HasFlag FlagsReg (NormalizeRule r) = false)
    (hrzbF : HasFlag FlagsRzdb (NormalizeRule r) = false) :
    RemoveRule f r = unparsePlainRule f (NormalizeRule r) := by
  unfold RemoveRule
  rw [if_neg hnil, unparseAll_not f _ hallF]
  dsimp only
  rw [unparseReg_not f _ hregF]
  dsimp only
  rw [unparseRzdb_not f _ hrzbF]
  rfl

theorem G1_strict (f : InternalRuler) : (getKnownExtensions f).1.strict = f.strict := by
  unfold getKnownExtensions; split_ifs <;> rfl

theorem G1_ends (f : InternalRuler) : (getKnownExtensions f).1.ends = f.ends := by
  unfold getKnownExtensions; split_ifs <;> rfl

theorem G1_present (f : InternalRuler) : (getKnownExtensions f).1.present = f.present := by
  unfold getKnownExtensions; split_ifs <;> rfl

theorem G1_regex (f : InternalRuler) : (getKnownExtensions f).1.regex = f.regex := by
  unfold getKnownExtensions; split_ifs <;> rfl

theorem G1_compiled (f : InternalRuler) :
    (getKnownExtensions f).1.compiled_regexp = f.compiled_regexp := by
  unfold getKnownExtensions; split_ifs <;> rfl

theorem G1_hc (f : InternalRuler) :
    (getKnownExtensions f).1.handle_complement = f.handle_complement := by
  unfold getKnownExtensions; split_ifs <;> rfl

theorem G1_extensions (f : InternalRuler) :
    (getKnownExtensions f).1.extensions = (getKnownExtensions f).2 := by
  unfold getKnownExtensions; split_ifs <;> rfl

theorem G1_catalogFeed (f : InternalRuler) :
    (getKnownExtensions f).1.catalogFeed = f.catalogFeed := by
  unfold getKnownExtensions; split_ifs <;> rfl

/-- A second `getKnownExtensions` on any engine whose cache already holds
what the first call fetched serves the same list and leaves the engine
unchanged. -/
theorem getKnownExtensions_of_fetched (f g : InternalRuler)
    (hE : g.extensions = (getKnownExtensions f).2) (hF : g.catalogFeed = f.catalogFeed) :
    getKnownExtensions g = (g, (getKnownExtensions f).2) := by
  unfold getKnownExtensions at hE ⊢
  by_cases hext : f.extensions.length = 0
  · rw [if_pos hext] at hE ⊢
    dsimp only at hE ⊢
    split_ifs with h2
    · have hge : g.catalogFeed = g.extensions := hF.trans hE.symm
      have h1 : ({ g with extensions := g.catalogFeed } : InternalRuler) = g := by
        nth_rewrite 1 [hge]
        rfl
      rw [h1, hF]
    · rw [hE]
  · rw [if_neg hext] at hE ⊢
    dsimp only at hE ⊢
    split_ifs with h2
    · rw [hE] at h2
      exact absurd h2 hext
    · rw [hE]

/-- C4 (amended): for every engine state, every rule text of the strict or
suffix kinds (plain, `ALL`, `RZDB` — i.e. not `REG`-flagged), and every
subject, executing `AddRule(r)` then `RemoveRule(r)` yields an
`IsWhitelisted` verdict identical to the verdict before the add — provided
that, when the rule is `RZDB`-flagged and complement handling is on, its
flag-stripped body does not begin with `www.www.` (the classifier strips
the `www.` prefix twice on add but only once on remove, breaking the mirror
in exactly that case). -/
theorem c4_add_then_remove_same_verdict (f : InternalRuler) (r s : GoStr)
    (hreg : HasFlag FlagsReg (NormalizeRule r) = false)
    (hrz : HasFlag FlagsRzdb (NormalizeRule r) = true → f.handle_complement = true →
      goStarts (cleanupFlags FlagsRzdb (NormalizeRule r)) (gs "www.www.") = false) :
    IsWhitelisted (RemoveRule (AddRule f r).2 r).2 s = IsWhitelisted f s := by
  by_cases hnil : NormalizeRule r = []
  · have h1 : AddRule f r = (false, f) := by unfold AddRule; rw [if_pos hnil]
    have h2 : RemoveRule f r = (false, f) := by unfold RemoveRule; rw [if_pos hnil]
    rw [h1]
    dsimp only
    rw [h2]
  · by_cases hall : HasFlag FlagsAll (NormalizeRule r) = true
    · rw [addRule_to_all f r hnil hall, parseAll_eq f _ hall]
      dsimp only
      rw [removeRule_to_all _ r hnil hall, unparseAll_eq _ _ hall]
      dsimp only
      apply IsWhitelisted_congr
      refine ⟨fun k y => ?_, fun k y => ?_, rfl, rfl, rfl, rfl⟩
      · dsimp only
        exact mem_push_pull _ _ _ k y
      · dsimp only
        exact mem_push_pull _ _ _ k y
    · have hallF : HasFlag FlagsAll (NormalizeRule r) = false := by simpa using hall
      by_cases hrzb : HasFlag FlagsRzdb (NormalizeRule r) = true
      · rw [addRule_to_rzdb f r hnil hallF hreg hrzb, parseRzdb_eq f _ hrzb]
        dsimp only
        rw [rzdb_strip_eq f.handle_complement (cleanupFlags FlagsRzdb (NormalizeRule r))
          (hrz hrzb)]
        rw [rzdbPushLoop_eq]
        simp only [G1_strict, G1_ends, G1_present, G1_regex, G1_compiled, G1_hc,
          G1_extensions, G1_catalogFeed]
        rw [removeRule_to_rzdb _ r hnil hallF hreg hrzb, unparseRzdb_eq _ _ hrzb]
        dsimp only
        rw [getKnownExtensions_of_fetched f _ (by rfl) (by rfl)]
        dsimp only
        rw [rzdbPullLoop_eq]
        dsimp only
        apply IsWhitelisted_congr
        refine ⟨fun k y => ?_, fun k y => ?_, rfl, rfl, rfl, rfl⟩
        · dsimp only
          exact mem_push_pull _ _ _ k y
        · dsimp only
          exact Iff.rfl
      · have hrzbF : HasFlag FlagsRzdb (NormalizeRule r) = false := by simpa using hrzb
        rw [addRule_to_plain f r hnil hallF hreg hrzbF, parsePlain_eq f _]
        cases hP : plainList f.handle_complement (NormalizeRule r) with
        | none =>
          dsimp only
          rw [removeRule_to_plain f r hnil hallF hreg hrzbF, unparsePlain_eq f _, hP]
        | some xs =>
          dsimp only
          rw [removeRule_to_plain _ r hnil hallF hreg hrzbF, unparsePlain_eq _ _]
          dsimp only
          rw [hP]
          dsimp only
          apply IsWhitelisted_congr
          refine ⟨fun k y => ?_, fun k y => ?_, rfl, rfl, rfl, rfl⟩
          · dsimp only
            exact mem_push_pull _ _ _ k y
          · dsimp only
            exact Iff.rfl

/-! ## Lemmas for the AddRule result and no-op removals -/

theorem goTrimLeftF_ascii (fuel b : Nat) (t : GoStr) (hb : b < 0x80)
    (hsp : isSpaceRune b = false) : goTrimLeftF fuel (b :: t) = b :: t := by
  cases fuel with
  | zero => rfl
  | succ fuel => simp [goTrimLeftF, utf8DecFirst, hb, hsp]

theorem goTrimRightF_take (fuel : Nat) : ∀ l : GoStr, ∃ m, goTrimRightF fuel l = l.take m := by
  induction fuel with
  | zero => exact fun l => ⟨l.length, (l.take_length).symm⟩
  | succ fuel ih =>
    intro l
    cases l with
    | nil => exact ⟨0, rfl⟩
    | cons a t =>
      simp only [goTrimRightF]
      split_ifs with hsp
      · obtain ⟨m, hm⟩ := ih ((a :: t).take ((a :: t).length - max (utf8DecLast (a :: t)).2 1))
        rw [hm, List.take_take]
        exact ⟨_, rfl⟩
      · exact ⟨(a :: t).length, (List.take_length _).symm⟩

theorem goStarts_nil_cons (b : Nat) (p' : GoStr) : goStarts [] (b :: p') = false := by
  simp [goStarts]

theorem goStarts_cons_cons_ne (a b : Nat) (s' p' : GoStr) (h : ¬ a = b) :
    goStarts (a :: s') (b :: p') = false := by
  simp [goStarts, List.take_succ_cons, h]

theorem goRunes_cons_ascii (b : Nat) (t : GoStr) (hb : b < 0x80) :
    goRunes (b :: t) = b :: goRunes t := by
  simp [goRunes, goRunesF, utf8DecFirst, hb]

theorem goToLower_head104 (n : GoStr)
    (h : goStarts n (gs "http://") = true ∨ goStarts n (gs "https://") = true) :
    ∃ t, goToLower n = 104 :: t := by
  have htake1 : n.take 1 = [104] := by
    cases h with
    | inl h =>
      have h7 := (goStarts_iff n (gs "http://")).mp h
      have h1n : n.take 1 = (n.take ((gs "http://").length)).take 1 := by
        rw [List.take_take, show ((1 : Nat) ⊓ (gs "http://").length) = 1 from by decide]
      rw [h1n, h7]
      decide
    | inr h =>
      have h8 := (goStarts_iff n (gs "https://")).mp h
      have h1n : n.take 1 = (n.take ((gs "https://").length)).take 1 := by
        rw [List.take_take, show ((1 : Nat) ⊓ (gs "https://").length) = 1 from by decide]
      rw [h1n, h8]
      decide
  cases n with
  | nil => simp at htake1
  | cons b t =>
    simp only [List.take_succ_cons, List.take_zero, List.cons.injEq] at htake1
    obtain ⟨hb, -⟩ := htake1
    subst hb
    refine ⟨((goRunes t).map lowerRune).flatMap utf8Enc, ?_⟩
    unfold goToLower
    rw [goRunes_cons_ascii 104 t (by norm_num)]
    simp [lowerRune, utf8Enc]

theorem HasFlag_false_of_scheme (flags : List GoStr) (n : GoStr)
    (hfl : ∀ fl ∈ flags, goToLower fl ≠ [] ∧ (goToLower fl).take 1 ≠ [104])
    (h : goStarts n (gs "http://") = true ∨ goStarts n (gs "https://") = true) :
    HasFlag flags n = false := by
  obtain ⟨t, ht⟩ := goToLower_head104 n h
  unfold HasFlag
  rw [List.any_eq_false]
  intro fl hmem
  obtain ⟨hne, h1⟩ := hfl fl hmem
  rw [ht]
  have h104 : (104 : Nat) < 0x80 := by norm_num
  have hsp : isSpaceRune 104 = false := by decide
  unfold goTrimSpace
  rw [goTrimLeftF_ascii _ _ _ h104 hsp]
  obtain ⟨m, hm⟩ := goTrimRightF_take ((104 :: t).length) (104 :: t)
  rw [hm]
  cases hfl2 : goToLower fl with
  | nil => exact absurd hfl2 hne
  | cons b p' =>
    have hb : ¬ (104 : Nat) = b := by
      intro hcon
      rw [hfl2] at h1
      simp only [List.take_succ_cons, List.take_zero] at h1
      exact h1 (by rw [← hcon])
    cases m with
    | zero => simp [goStarts_nil_cons]
    | succ m =>
      rw [List.take_succ_cons]
      simp [goStarts_cons_cons_ne _ _ _ _ hb]

theorem parseReg_eq (f : InternalRuler) (n : GoStr) (h : HasFlag FlagsReg n = true) :
    parseRegexFlaggedRule f n = (true, pushRegexRule f (cleanupFlags FlagsReg n)) := by
  unfold parseRegexFlaggedRule
  rw [if_neg (by simp [h])]

theorem unparseReg_eq (f : InternalRuler) (n : GoStr) (h : HasFlag FlagsReg n = true) :
    unparseRegexFlaggedRule f n = (true, pullRegexRule f (cleanupFlags FlagsReg n)) := by
  unfold unparseRegexFlaggedRule
  rw [if_neg (by simp [h])]

theorem addRule_to_reg (f : InternalRuler) (r : GoStr) (hnil : ¬ NormalizeRule r = [])
    (hallF : HasFlag FlagsAll (NormalizeRule r) = false)
    (hreg : HasFlag FlagsReg (NormalizeRule r) = true) :
    AddRule f r = parseRegexFlaggedRule f (NormalizeRule r) := by
  unfold AddRule
  rw [if_neg hnil, parseAll_not f _ hallF]
  dsimp only
  rw [parseReg_eq f _ hreg]
  rfl

theorem removeRule_to_reg (f : InternalRuler) (r : GoStr) (hnil : ¬ NormalizeRule r = [])
    (hallF : HasFlag FlagsAll (NormalizeRule r) = false)
    (hreg : HasFlag FlagsReg (NormalizeRule r) = true) :
    RemoveRule f r = unparseRegexFlaggedRule f (NormalizeRule r) := by
  unfold RemoveRule
  rw [if_neg hnil, unparseAll_not f _ hallF]
  dsimp only
  rw [unparseReg_eq f _ hreg]
  rfl

theorem plainList_none_iff (hc : Bool) (n : GoStr) :
    plainList hc n = none ↔
      (hc = true ∧
        (goStarts n (gs "http://") = true ∨ goStarts n (gs "https://") = true) ∧
        ExtractNetLocationFromURL n = none) := by
  unfold plainList
  by_cases h1 : hc = true
  · rw [if_pos h1]
    by_cases h2 : goStarts n (gs "http://") = true ∨ goStarts n (gs "https://") = true
    · rw [if_pos h2]
      cases hE : ExtractNetLocationFromURL n with
      | none => simp [h1, h2, hE]
      | some netloc => simp [h1, h2, hE]
    · rw [if_neg h2]
      simp [h2]
  · rw [if_neg h1]
    simp [h1]

theorem foldPullK_absent (key : GoStr → GoStr) (xs : List GoStr) (g : GoStr → List GoStr)
    (h : ∀ x ∈ xs, x ∉ g (key x)) : foldPullK key g xs = g := by
  induction xs generalizing g with
  | nil => rfl
  | cons x xs ih =>
    have hx : mapPull key g x = g := by
      funext k
      unfold mapPull
      split_ifs with hk
      · rw [hk]
        exact List.erase_of_not_mem (h x (List.mem_cons_self x xs))
      · rfl
    simp only [foldPullK, List.foldl_cons]
    rw [hx]
    exact ih g (fun y hy => h y (List.mem_cons_of_mem _ hy))

theorem goReplaceAllF_not (fuel : Nat) (s old new : GoStr) (h : goContains s old = false) :
    goReplaceAllF fuel s old new = s := by
  cases fuel <;> simp [goReplaceAllF, h]

theorem goReplaceAll_not (s old new : GoStr) (h : goContains s old = false) :
    goReplaceAll s old new = s := by
  unfold goReplaceAll
  split_ifs with h0
  · rfl
  · exact goReplaceAllF_not _ _ _ _ h

/-! ## Claim theorems -/

/-- C1: for a fresh engine (either complement-handling setting), after
`AddRule("foo.example.com")` the query `IsWhitelisted("foo.example.com")`
returns true and `IsWhitelisted("bar.example.com")` returns false. -/
theorem c1_plain_rule_exact_match :
    ∀ hc : Bool,
      IsWhitelisted ((AddRule (NewInternalRuler hc []) (gs "foo.example.com")).2)
        (gs "foo.example.com") = true ∧
      IsWhitelisted ((AddRule (NewInternalRuler hc []) (gs "foo.example.com")).2)
        (gs "bar.example.com") = false := by
  decide

/-- C2: for a fresh engine (either complement-handling setting), after
`AddRule("ALL .org")` the query `IsWhitelisted("bar.example.org")` returns
true and `IsWhitelisted("example.com")` returns false. -/
theorem c2_suffix_rule :
    ∀ hc : Bool,
      IsWhitelisted ((AddRule (NewInternalRuler hc []) (gs "ALL .org")).2)
        (gs "bar.example.org") = true ∧
      IsWhitelisted ((AddRule (NewInternalRuler hc []) (gs "ALL .org")).2)
        (gs "example.com") = false := by
  decide

set_option maxRecDepth 40000 in
/-- C3: for a fresh engine (either complement-handling setting) whose
extension catalog is fixed to exactly {de, com, org, net}, after
`AddRule("RZDB güter")` the queries `IsWhitelisted` on `güter.de`,
`güter.com`, `güter.org`, `güter.net` all return true, and `güter.io`
returns false. -/
theorem c3_broad_rule_catalog_expansion :
    ∀ hc : Bool,
      IsWhitelisted ((AddRule { NewInternalRuler hc [] with
          extensions := [gs "de", gs "com", gs "org", gs "net"] } (gs "RZDB güter")).2)
        (gs "güter.de") = true ∧
      IsWhitelisted ((AddRule { NewInternalRuler hc [] with
          extensions := [gs "de", gs "com", gs "org", gs "net"] } (gs "RZDB güter")).2)
        (gs "güter.com") = true ∧
      IsWhitelisted ((AddRule { NewInternalRuler hc [] with
          extensions := [gs "de", gs "com", gs "org", gs "net"] } (gs "RZDB güter")).2)
        (gs "güter.org") = true ∧
      IsWhitelisted ((AddRule { NewInternalRuler hc [] with
          extensions := [gs "de", gs "com", gs "org", gs "net"] } (gs "RZDB güter")).2)
        (gs "güter.net") = true ∧
      IsWhitelisted ((AddRule { NewInternalRuler hc [] with
          extensions := [gs "de", gs "com", gs "org", gs "net"] } (gs "RZDB güter")).2)
        (gs "güter.io") = false := by
  decide

/-- C6: for a fresh engine (either complement-handling setting), after
`AddRule("REG vöklingen.*")` the query `IsWhitelisted("vöklingen.de")`
returns true. -/
theorem c6_regex_rule :
    ∀ hc : Bool,
      IsWhitelisted ((AddRule (NewInternalRuler hc []) (gs "REG vöklingen.*")).2)
        (gs "vöklingen.de") = true := by
  decide

/-- C7: for a fresh engine (either complement-handling setting) whose only
rule is the full URL `https://saarbrücken.saarland/foo/bar`, the host-only
query `IsWhitelisted("https://saarbrücken.saarland")` returns false while
the full-URL query returns true. -/
theorem c7_full_url_strict_rule :
    ∀ hc : Bool,
      IsWhitelisted ((AddRule (NewInternalRuler hc [])
          (gs "https://saarbrücken.saarland/foo/bar")).2)
        (gs "https://saarbrücken.saarland") = false ∧
      IsWhitelisted ((AddRule (NewInternalRuler hc [])
          (gs "https://saarbrücken.saarland/foo/bar")).2)
        (gs "https://saarbrücken.saarland/foo/bar") = true := by
  decide

/-- C4 counterexample: on the engine with complement handling enabled and
extension feed {de}, the rule `RZDB www.www.a` is of the Rzdb kind, yet
`AddRule` followed by `RemoveRule` of the same text flips the verdict of
`IsWhitelisted("a.de")` from false to true: the add strips `www.` from the
body twice (pushing `a.de` and `www.a.de`), the remove strips it once
(pulling `www.a.de` and `www.www.a.de`), leaving `a.de` behind. -/
theorem c4_counterexample :
    IsWhitelisted (NewInternalRuler true [gs "de"]) (gs "a.de") = false ∧
    HasFlag FlagsRzdb (NormalizeRule (gs "RZDB www.www.a")) = true ∧
    IsWhitelisted ((RemoveRule ((AddRule (NewInternalRuler true [gs "de"])
        (gs "RZDB www.www.a")).2) (gs "RZDB www.www.a")).2) (gs "a.de") = true := by
  decide

/-- C4 witness: the amended round-trip theorem applied at a concrete plain
rule on a fresh engine. -/
theorem c4_witness :
    (HasFlag FlagsReg (NormalizeRule (gs "foo.example.com")) = false) ∧
    IsWhitelisted (RemoveRule (AddRule (NewInternalRuler false [])
        (gs "foo.example.com")).2 (gs "foo.example.com")).2 (gs "bar.example.org") =
      IsWhitelisted (NewInternalRuler false []) (gs "bar.example.org") :=
  ⟨by decide,
   c4_add_then_remove_same_verdict (NewInternalRuler false []) (gs "foo.example.com")
     (gs "bar.example.org") (by decide) (by decide)⟩

/-- C8 counterexample: for the rule line `foo.com#c` — non-empty after
trimming, not a comment, not scheme-prefixed, containing `#` — the
normalizer does not keep exactly the text before the first `#`: the
`rule[:Index(rule, "#")-1]` slice also drops the byte before the `#`, so
the result is `foo.co`, not the Unicode-domain encoding of `foo.com`. -/
theorem c8_counterexample :
    goTrimSpace (gs "foo.com#c") ≠ [] ∧
    goStarts (goTrimSpace (gs "foo.com#c")) (gs "#") = false ∧
    goStarts (goTrimSpace (gs "foo.com#c")) (gs "http://") = false ∧
    goStarts (goTrimSpace (gs "foo.com#c")) (gs "https://") = false ∧
    goContains (goTrimSpace (gs "foo.com#c")) (gs "#") = true ∧
    NormalizeRule (gs "foo.com#c") = gs "foo.co" ∧
    NormalizeRule (gs "foo.com#c") ≠ idnazeOrSelf (goTrimSpace (gs "foo.com")) := by
  decide

/-- C8 (amended): for every rule line r that is non-empty after trimming,
does not start with `#` or a URL scheme, and contains `#`, `NormalizeRule(r)`
equals the Unicode-domain encoding of the trimmed text preceding the byte
immediately before the first `#` — i.e. comment stripping removes the text
from the first `#` onward plus one extra preceding character. -/
theorem c8_comment_strip_drops_one_extra (r : GoStr)
    (h1 : goTrimSpace r ≠ [])
    (h2 : goStarts (goTrimSpace r) (gs "#") = false)
    (h3 : goStarts (goTrimSpace r) (gs "http://") = false)
    (h4 : goStarts (goTrimSpace r) (gs "https://") = false)
    (h5 : goContains (goTrimSpace r) (gs "#") = true) :
    NormalizeRule r =
      idnazeOrSelf
        (goTrimSpace ((goTrimSpace r).take (goIdx (goTrimSpace r) (gs "#") - 1))) := by
  simp only [NormalizeRule, idnazeOrSelf]
  rw [if_neg (fun hor => hor.elim h1 (fun hh => by rw [h2] at hh; exact Bool.false_ne_true hh)),
    if_neg (fun hor => hor.elim
      (fun hh => by rw [h3] at hh; exact Bool.false_ne_true hh)
      (fun hh => by rw [h4] at hh; exact Bool.false_ne_true hh)),
    if_pos h5]

/-- C8 witness: the amended statement evaluated at the rule line
`host.de # note`. -/
theorem c8_witness :
    (goTrimSpace (gs "host.de # note") ≠ [] ∧
     goStarts (goTrimSpace (gs "host.de # note")) (gs "#") = false ∧
     goStarts (goTrimSpace (gs "host.de # note")) (gs "http://") = false ∧
     goStarts (goTrimSpace (gs "host.de # note")) (gs "https://") = false ∧
     goContains (goTrimSpace (gs "host.de # note")) (gs "#") = true) ∧
    NormalizeRule (gs "host.de # note") =
      idnazeOrSelf (goTrimSpace ((goTrimSpace (gs "host.de # note")).take
        (goIdx (goTrimSpace (gs "host.de # note")) (gs "#") - 1))) :=
  ⟨by decide,
   c8_comment_strip_drops_one_extra (gs "host.de # note")
     (by decide) (by decide) (by decide) (by decide) (by decide)⟩

/-- C10: for every engine state and every input line, each token of the
comment-stripped, whitespace-split, adjacent-duplicate-collapsed token list
appears in exactly one of `GetWhitelistedFromLine` and
`GetBlacklistedFromLine`; both result lists are order-preserving
subsequences of the token list; blank and comment-only lines yield two
empty lists. -/
theorem c10_line_partition (g : InternalRuler) (line : GoStr) :
    (∀ t ∈ lineSubjects line,
      (t ∈ GetWhitelistedFromLine g line ∧ t ∉ GetBlacklistedFromLine g line) ∨
      (t ∈ GetBlacklistedFromLine g line ∧ t ∉ GetWhitelistedFromLine g line)) ∧
    (GetWhitelistedFromLine g line).Sublist (lineSubjects line) ∧
    (GetBlacklistedFromLine g line).Sublist (lineSubjects line) ∧
    ((goTrimSpace line = [] ∨ goStarts (goTrimSpace line) (gs "#") = true) →
      GetWhitelistedFromLine g line = [] ∧ GetBlacklistedFromLine g line = []) := by
  refine ⟨?_, List.filter_sublist _, List.filter_sublist _, ?_⟩
  · intro t ht
    by_cases hw : IsSubjectWhitelisted g t = true
    · left
      constructor
      · exact List.mem_filter.mpr ⟨ht, hw⟩
      · intro hmem
        have hb := (List.mem_filter.mp hmem).2
        unfold IsSubjectBlacklisted at hb
        rw [hw] at hb
        exact Bool.false_ne_true hb
    · right
      have hw' : IsSubjectWhitelisted g t = false := by
        revert hw
        cases IsSubjectWhitelisted g t <;> simp
      constructor
      · refine List.mem_filter.mpr ⟨ht, ?_⟩
        unfold IsSubjectBlacklisted
        rw [hw']
        rfl
      · intro hmem
        have hb := (List.mem_filter.mp hmem).2
        rw [hw'] at hb
        exact Bool.false_ne_true hb
  · intro h0
    have hsub : lineSubjects line = [] := by
      simp only [lineSubjects]
      rw [if_pos h0]
    unfold GetWhitelistedFromLine GetBlacklistedFromLine
    rw [hsub]
    exact ⟨rfl, rfl⟩

/-- C10 witness: the partition applied to a concrete engine and hosts-file
line. -/
theorem c10_witness :
    gs "foo.example.com" ∈ lineSubjects (gs "0.0.0.0 foo.example.com bar.net # x") ∧
    ((gs "foo.example.com" ∈ GetWhitelistedFromLine
        ((AddRule (NewInternalRuler false []) (gs "foo.example.com")).2)
        (gs "0.0.0.0 foo.example.com bar.net # x") ∧
      gs "foo.example.com" ∉ GetBlacklistedFromLine
        ((AddRule (NewInternalRuler false []) (gs "foo.example.com")).2)
        (gs "0.0.0.0 foo.example.com bar.net # x")) ∨
     (gs "foo.example.com" ∈ GetBlacklistedFromLine
        ((AddRule (NewInternalRuler false []) (gs "foo.example.com")).2)
        (gs "0.0.0.0 foo.example.com bar.net # x") ∧
      gs "foo.example.com" ∉ GetWhitelistedFromLine
        ((AddRule (NewInternalRuler false []) (gs "foo.example.com")).2)
        (gs "0.0.0.0 foo.example.com bar.net # x"))) :=
  ⟨by decide,
   (c10_line_partition ((AddRule (NewInternalRuler false []) (gs "foo.example.com")).2)
     (gs "0.0.0.0 foo.example.com bar.net # x")).1 (gs "foo.example.com") (by decide)⟩

/-- C5 counterexample: the rule line `a#b` is non-empty after trimming and
does not start with `#`, yet `AddRule` returns `false` for it under both
complement-handling settings: the `- 1` in the comment strip of
`NormalizeRule` reduces the line to the empty rule. -/
theorem c5_counterexample :
    goTrimSpace (gs "a#b") ≠ [] ∧
    goStarts (goTrimSpace (gs "a#b")) (gs "#") = false ∧
    (AddRule (NewInternalRuler false [gs "de"]) (gs "a#b")).1 = false ∧
    (AddRule (NewInternalRuler true [gs "de"]) (gs "a#b")).1 = false := by
  decide

/-- C5 (amended): for every input whose normalized rule is not
`REG`-flagged, `AddRule(r)` returns `true` exactly when the normalized
rule is non-empty and it is not the case that complement handling is on,
the normalized rule is scheme-prefixed and no net location can be
extracted from it; and every rule text that is empty or comment-leading
after trimming normalizes to the empty rule, so `AddRule` returns `false`
on it.  Non-empty, non-comment input can still be rejected: normalization
can empty it (the inline-comment strip drops one extra character), and the
complement branch can fail to parse a rule as a URL.  `REG`-flagged rules
are excluded because on them the program never returns `false` but does
not always return `true` either: `pushRegexRule` recompiles the
accumulated pattern with `regexp.MustCompile`, which panics on an invalid
pattern (e.g. the rule `REG (`) — an exit this embedding does not model. -/
theorem c5_add_rule_result (f : InternalRuler) (r : GoStr)
    (hreg : HasFlag FlagsReg (NormalizeRule r) = false) :
    ((AddRule f r).1 = true ↔
      (NormalizeRule r ≠ [] ∧
        ¬(f.handle_complement = true ∧
          (goStarts (NormalizeRule r) (gs "http://") = true ∨
           goStarts (NormalizeRule r) (gs "https://") = true) ∧
          ExtractNetLocationFromURL (NormalizeRule r) = none))) ∧
    ((goTrimSpace r = [] ∨ goStarts (goTrimSpace r) (gs "#") = true) →
      NormalizeRule r = []) := by
  constructor
  · by_cases hnil : NormalizeRule r = []
    · have h1 : AddRule f r = (false, f) := by unfold AddRule; rw [if_pos hnil]
      constructor
      · intro hadd
        rw [h1] at hadd
        exact absurd hadd Bool.false_ne_true
      · intro hrhs
        exact absurd hnil hrhs.1
    · by_cases hall : HasFlag FlagsAll (NormalizeRule r) = true
      · have hns : ¬(f.handle_complement = true ∧
            (goStarts (NormalizeRule r) (gs "http://") = true ∨
             goStarts (NormalizeRule r) (gs "https://") = true) ∧
            ExtractNetLocationFromURL (NormalizeRule r) = none) := by
          intro hcon
          have hF := HasFlag_false_of_scheme FlagsAll (NormalizeRule r) (by decide) hcon.2.1
          rw [hall] at hF
          exact Bool.true_eq_false.mp hF
        rw [addRule_to_all f r hnil hall, parseAll_eq f _ hall]
        exact ⟨fun _ => ⟨hnil, hns⟩, fun _ => rfl⟩
      · have hallF : HasFlag FlagsAll (NormalizeRule r) = false := by simpa using hall
        by_cases hrzb : HasFlag FlagsRzdb (NormalizeRule r) = true
        · have hns : ¬(f.handle_complement = true ∧
              (goStarts (NormalizeRule r) (gs "http://") = true ∨
               goStarts (NormalizeRule r) (gs "https://") = true) ∧
              ExtractNetLocationFromURL (NormalizeRule r) = none) := by
            intro hcon
            have hF := HasFlag_false_of_scheme FlagsRzdb (NormalizeRule r) (by decide) hcon.2.1
            rw [hrzb] at hF
            exact Bool.true_eq_false.mp hF
          rw [addRule_to_rzdb f r hnil hallF hreg hrzb, parseRzdb_eq f _ hrzb]
          exact ⟨fun _ => ⟨hnil, hns⟩, fun _ => rfl⟩
        · have hrzbF : HasFlag FlagsRzdb (NormalizeRule r) = false := by simpa using hrzb
          rw [addRule_to_plain f r hnil hallF hreg hrzbF, parsePlain_eq f _]
          cases hP : plainList f.handle_complement (NormalizeRule r) with
          | none =>
            dsimp only
            constructor
            · intro hadd
              exact absurd hadd Bool.false_ne_true
            · intro hrhs
              exact absurd ((plainList_none_iff _ _).mp hP) hrhs.2
          | some xs =>
            dsimp only
            constructor
            · intro _
              refine ⟨hnil, fun hcon => ?_⟩
              have hnone := (plainList_none_iff f.handle_complement (NormalizeRule r)).mpr hcon
              rw [hP] at hnone
              exact Option.some_ne_none xs hnone
            · intro _
              rfl
  · intro h0
    simp only [NormalizeRule]
    rw [if_pos h0]

/-- C5 witness: the amended result theorem applied to a fresh engine with
complement handling on and the plain (non-`REG`) rule `example.com`. -/
theorem c5_witness :
    HasFlag FlagsReg (NormalizeRule (gs "example.com")) = false ∧
    (AddRule (NewInternalRuler true [gs "de"]) (gs "example.com")).1 = true :=
  ⟨by decide,
   ((c5_add_rule_result (NewInternalRuler true [gs "de"]) (gs "example.com")
       (by decide)).1).mpr (by decide)⟩

/-- C9 counterexample: on a fresh engine, add the regex rule `REG abc`,
then remove the regex rule `REG b` — a clause that was never added.  The
removal is textual (`strings.ReplaceAll` on the accumulated pattern), so
it mangles the stored pattern `abc` into `ac`, and the verdict of
`IsWhitelisted("ac")` flips from false to true instead of staying put. -/
theorem c9_counterexample :
    IsWhitelisted ((AddRule (NewInternalRuler false []) (gs "REG abc")).2) (gs "ac") = false ∧
    (RemoveRule ((AddRule (NewInternalRuler false []) (gs "REG abc")).2) (gs "REG b")).2.regex ≠
      ((AddRule (NewInternalRuler false []) (gs "REG abc")).2).regex ∧
    IsWhitelisted ((RemoveRule ((AddRule (NewInternalRuler false []) (gs "REG abc")).2)
        (gs "REG b")).2) (gs "ac") = true := by
  decide

/-- C9 (amended): `RemoveRule` leaves the index store unchanged provided
its targeted entries are absent in the sense of `removalTargetsAbsent`:
for a strict or suffix rule, none of the entries it would pull is present
in the respective bucket; for a regex rule, the clause text occurs nowhere
as a substring of the accumulated pattern (removal is textual, so plain
clause-absence is not enough — see the counterexample).  The engine's
pattern and compiled matcher must be in their reachable-state sync.  Then
the strict, ends, present, regex and compiled-pattern fields are
unchanged and every subsequent `IsWhitelisted` verdict is unchanged (a
broad rule's removal may still populate the extension-catalog cache,
which the verdict never reads). -/
theorem c9_remove_noop (f : InternalRuler) (r : GoStr)
    (hnil : ¬ NormalizeRule r = [])
    (hsync : f.compiled_regexp = (if f.regex = [] then none else some f.regex))
    (habs : removalTargetsAbsent f (NormalizeRule r) = true) :
    (RemoveRule f r).2.strict = f.strict ∧
    (RemoveRule f r).2.ends = f.ends ∧
    (RemoveRule f r).2.present = f.present ∧
    (RemoveRule f r).2.regex = f.regex ∧
    (RemoveRule f r).2.compiled_regexp = f.compiled_regexp ∧
    ∀ s, IsWhitelisted (RemoveRule f r).2 s = IsWhitelisted f s := by
  by_cases hall : HasFlag FlagsAll (NormalizeRule r) = true
  · unfold removalTargetsAbsent at habs
    rw [if_pos hall, Bool.and_eq_true] at habs
    obtain ⟨hA, hB⟩ := habs
    rw [List.all_eq_true] at hA hB
    simp only [decide_eq_true_eq] at hA hB
    have hEq : (RemoveRule f r).2 = f := by
      rw [removeRule_to_all f r hnil hall, unparseAll_eq f _ hall]
      dsimp only
      rw [foldPullK_absent _ _ _ hA, foldPullK_absent _ _ _ hB]
    rw [hEq]
    exact ⟨rfl, rfl, rfl, rfl, rfl, fun s => rfl⟩
  · have hallF : HasFlag FlagsAll (NormalizeRule r) = false := by simpa using hall
    by_cases hreg : HasFlag FlagsReg (NormalizeRule r) = true
    · unfold removalTargetsAbsent at habs
      rw [if_neg (by simp [hallF]), if_pos hreg] at habs
      have hcontain : goContains f.regex (cleanupFlags FlagsReg (NormalizeRule r)) = false := by
        revert habs
        cases goContains f.regex (cleanupFlags FlagsReg (NormalizeRule r)) <;> simp
      have hEq : (RemoveRule f r).2 = f := by
        rw [removeRule_to_reg f r hnil hallF hreg, unparseReg_eq f _ hreg]
        dsimp only
        simp only [pullRegexRule]
        rw [goReplaceAll_not _ _ _ hcontain]
        by_cases h0 : f.regex = []
        · rw [if_pos h0]
        · have hc2 : f.compiled_regexp = some f.regex := by rw [hsync, if_neg h0]
          rw [if_neg h0, if_neg (by rw [hc2]; simp), if_neg h0, ← hc2]
      rw [hEq]
      exact ⟨rfl, rfl, rfl, rfl, rfl, fun s => rfl⟩
    · have hregF : HasFlag FlagsReg (NormalizeRule r) = false := by simpa using hreg
      by_cases hrzb : HasFlag FlagsRzdb (NormalizeRule r) = true
      · unfold removalTargetsAbsent at habs
        rw [if_neg (by simp [hallF]), if_neg (by simp [hregF]), if_pos hrzb] at habs
        rw [List.all_eq_true] at habs
        simp only [decide_eq_true_eq] at habs
        unfold rzdbStripOnce at habs
        have hEq : (RemoveRule f r).2 =
            { (getKnownExtensions f).1 with strict := f.strict } := by
          rw [removeRule_to_rzdb f r hnil hallF hregF hrzb, unparseRzdb_eq f _ hrzb]
          dsimp only
          rw [rzdbPullLoop_eq, G1_hc, G1_strict, foldPullK_absent _ _ _ habs]
        rw [hEq]
        refine ⟨rfl, G1_ends f, G1_present f, G1_regex f, G1_compiled f, ?_⟩
        intro s
        apply IsWhitelisted_congr
        refine ⟨fun k y => Iff.rfl, fun k y => ?_, ?_, ?_, ?_, ?_⟩
        · dsimp only
          rw [G1_ends]
        · exact G1_present f
        · exact G1_regex f
        · exact G1_compiled f
        · exact G1_hc f
      · have hrzbF : HasFlag FlagsRzdb (NormalizeRule r) = false := by simpa using hrzb
        unfold removalTargetsAbsent at habs
        rw [if_neg (by simp [hallF]), if_neg (by simp [hregF]),
          if_neg (by simp [hrzbF])] at habs
        have hEq : (RemoveRule f r).2 = f := by
          rw [removeRule_to_plain f r hnil hallF hregF hrzbF, unparsePlain_eq f _]
          cases hP : plainList f.handle_complement (NormalizeRule r) with
          | none => rfl
          | some xs =>
            rw [hP] at habs
            dsimp only at habs
            rw [List.all_eq_true] at habs
            simp only [decide_eq_true_eq] at habs
            dsimp only
            rw [foldPullK_absent _ _ _ habs]
        rw [hEq]
        exact ⟨rfl, rfl, rfl, rfl, rfl, fun s => rfl⟩

/-- C9 witness: the no-op removal theorem applied to a fresh engine (whose
pattern and matcher are trivially in sync) and the never-added plain rule
`example.com`. -/
theorem c9_witness :
    IsWhitelisted (RemoveRule (NewInternalRuler true [gs "de"]) (gs "example.com")).2
        (gs "a.de") =
      IsWhitelisted (NewInternalRuler true [gs "de"]) (gs "a.de") :=
  (c9_remove_noop (NewInternalRuler true [gs "de"]) (gs "example.com")
    (by decide) (by decide) (by decide)).2.2.2.2.2 (gs "a.de")

end Givilsta
